import Mathlib

set_option maxRecDepth 100000

namespace ProjectOtto

/-!
Shallow embedding of parts of the Project Otto robot software, translated from
the Python sources. Bytes are modelled as natural numbers below 256; machine
integers are unbounded Python ints and are modelled as `Nat`/`Int` directly;
scores and variances (Python floats) are modelled as rationals, and spatial
coordinates as reals. Definitions come first, then the theorems about them.
-/

/-! ## CRC tables and checksums (src/uart/_crc.py) -/

/-- One update of the table-generation shift register:
`crc = (crc >> 1) ^ poly` when the low bit is set, else `crc = crc >> 1`. -/
def tableStep (poly crc : Nat) : Nat :=
  if crc % 2 = 1 then (crc / 2) ^^^ poly else crc / 2

/-- Python `range(0, stop, step)` for positive `step`. -/
def rangeStep (stop step : Nat) : List Nat :=
  (List.range ((stop + step - 1) / step)).map (fun k => k * step)

/-- The inner loop of `compute_table`: for `j in range(0, 255, 2 ** (i + 1))`,
set `table[2 ** i + j] = crc ^ table[j]`. -/
def fillPass (crc i : Nat) (table : List Nat) : List Nat :=
  (rangeStep 255 (2 ^ (i + 1))).foldl
    (fun tbl j => tbl.set (2 ^ i + j) (crc ^^^ tbl.getD j 0)) table

/-- `compute_table(poly)`: builds the 256-entry CRC lookup table, iterating
`i` over `reversed(range(8))` with the shift register starting at `0x1`. -/
def computeTable (poly : Nat) : List Nat :=
  ((List.range 8).reverse.foldl
    (fun st i =>
      let crc := tableStep poly st.1
      (crc, fillPass crc i st.2))
    (1, List.replicate 256 (0 : Nat))).2

/-- `CRC8_TABLE = compute_table(0x8C)`. -/
def CRC8_TABLE : List Nat := computeTable 0x8C

/-- `CRC16_TABLE = compute_table(0x8408)`. -/
def CRC16_TABLE : List Nat := computeTable 0x8408

/-- One lookup step of `crc8`: `checksum = CRC8_TABLE[checksum ^ byte]`
(indices stay below 256, so the `getD` default is never taken on the real
table). -/
def crc8Update (checksum byte : Nat) : Nat := CRC8_TABLE.getD (checksum ^^^ byte) 0

/-- `crc8(data, crc_init=0xFF)`: one table lookup per byte. -/
def crc8 (data : List Nat) (crcInit : Nat := 0xFF) : Nat :=
  data.foldl crc8Update crcInit

/-- One lookup step of `crc16`:
`checksum = (checksum >> 8) ^ CRC16_TABLE[(checksum ^ byte) & 0xFF]`. -/
def crc16Update (checksum byte : Nat) : Nat :=
  (checksum >>> 8) ^^^ CRC16_TABLE.getD ((checksum ^^^ byte) &&& 0xFF) 0

/-- `crc16(data, init_crc=0xFFFF)`: one lookup step per byte, masked to
16 bits at the end. -/
def crc16 (data : List Nat) (initCrc : Nat := 0xFFFF) : Nat :=
  (data.foldl crc16Update initCrc) &&& 0xFFFF

/-- The 256 entries of `CRC8_TABLE`, as a literal list (verified below). -/
def crc8TableValues : List Nat := [
  0, 94, 188, 226, 97, 63, 221, 131, 194, 156, 126, 32, 163, 253, 31, 65,
  157, 195, 33, 127, 252, 162, 64, 30, 95, 1, 227, 189, 62, 96, 130, 220,
  35, 125, 159, 193, 66, 28, 254, 160, 225, 191, 93, 3, 128, 222, 60, 98,
  190, 224, 2, 92, 223, 129, 99, 61, 124, 34, 192, 158, 29, 67, 161, 255,
  70, 24, 250, 164, 39, 121, 155, 197, 132, 218, 56, 102, 229, 187, 89, 7,
  219, 133, 103, 57, 186, 228, 6, 88, 25, 71, 165, 251, 120, 38, 196, 154,
  101, 59, 217, 135, 4, 90, 184, 230, 167, 249, 27, 69, 198, 152, 122, 36,
  248, 166, 68, 26, 153, 199, 37, 123, 58, 100, 134, 216, 91, 5, 231, 185,
  140, 210, 48, 110, 237, 179, 81, 15, 78, 16, 242, 172, 47, 113, 147, 205,
  17, 79, 173, 243, 112, 46, 204, 146, 211, 141, 111, 49, 178, 236, 14, 80,
  175, 241, 19, 77, 206, 144, 114, 44, 109, 51, 209, 143, 12, 82, 176, 238,
  50, 108, 142, 208, 83, 13, 239, 177, 240, 174, 76, 18, 145, 207, 45, 115,
  202, 148, 118, 40, 171, 245, 23, 73, 8, 86, 180, 234, 105, 55, 213, 139,
  87, 9, 235, 181, 54, 104, 138, 212, 149, 203, 41, 119, 244, 170, 72, 22,
  233, 183, 85, 11, 136, 214, 52, 106, 43, 117, 151, 201, 74, 20, 246, 168,
  116, 42, 200, 150, 21, 75, 169, 247, 182, 232, 10, 84, 215, 137, 107, 53]

/-- The 256 entries of `CRC16_TABLE`, as a literal list (verified below). -/
def crc16TableValues : List Nat := [
  0, 4489, 8978, 12955, 17956, 22445, 25910, 29887, 35912, 40385, 44890, 48851, 51820, 56293, 59774, 63735,
  4225, 264, 13203, 8730, 22181, 18220, 30135, 25662, 40137, 36160, 49115, 44626, 56045, 52068, 63999, 59510,
  8450, 12427, 528, 5017, 26406, 30383, 17460, 21949, 44362, 48323, 36440, 40913, 60270, 64231, 51324, 55797,
  12675, 8202, 4753, 792, 30631, 26158, 21685, 17724, 48587, 44098, 40665, 36688, 64495, 60006, 55549, 51572,
  16900, 21389, 24854, 28831, 1056, 5545, 10034, 14011, 52812, 57285, 60766, 64727, 34920, 39393, 43898, 47859,
  21125, 17164, 29079, 24606, 5281, 1320, 14259, 9786, 57037, 53060, 64991, 60502, 39145, 35168, 48123, 43634,
  25350, 29327, 16404, 20893, 9506, 13483, 1584, 6073, 61262, 65223, 52316, 56789, 43370, 47331, 35448, 39921,
  29575, 25102, 20629, 16668, 13731, 9258, 5809, 1848, 65487, 60998, 56541, 52564, 47595, 43106, 39673, 35696,
  33800, 38273, 42778, 46739, 49708, 54181, 57662, 61623, 2112, 6601, 11090, 15067, 20068, 24557, 28022, 31999,
  38025, 34048, 47003, 42514, 53933, 49956, 61887, 57398, 6337, 2376, 15315, 10842, 24293, 20332, 32247, 27774,
  42250, 46211, 34328, 38801, 58158, 62119, 49212, 53685, 10562, 14539, 2640, 7129, 28518, 32495, 19572, 24061,
  46475, 41986, 38553, 34576, 62383, 57894, 53437, 49460, 14787, 10314, 6865, 2904, 32743, 28270, 23797, 19836,
  50700, 55173, 58654, 62615, 32808, 37281, 41786, 45747, 19012, 23501, 26966, 30943, 3168, 7657, 12146, 16123,
  54925, 50948, 62879, 58390, 37033, 33056, 46011, 41522, 23237, 19276, 31191, 26718, 7393, 3432, 16371, 11898,
  59150, 63111, 50204, 54677, 41258, 45219, 33336, 37809, 27462, 31439, 18516, 23005, 11618, 15595, 3696, 8185,
  63375, 58886, 54429, 50452, 45483, 40994, 37561, 33584, 31687, 27214, 22741, 18780, 15843, 11370, 7921, 3960]
/-! ### Bit-linearity of the CRC tables -/

/-- XOR of the entries of `cs` selected by the binary digits of `a`. -/
def bitsum : List Nat → Nat → Nat
  | [], _ => 0
  | c :: cs, a => (if a % 2 = 1 then c else 0) ^^^ bitsum cs (a / 2)

/-- The entries of `CRC8_TABLE` at power-of-two indices. -/
def crc8Gens : List Nat := [94, 188, 97, 194, 157, 35, 70, 140]

/-- The entries of `CRC16_TABLE` at power-of-two indices. -/
def crc16Gens : List Nat := [4489, 8978, 17956, 35912, 4225, 8450, 16900, 33800]
/-! ## UART transceiver (src/uart/_transceiver.py) -/

/-- `HEADER_START = b"\xA5"`, as a byte value. -/
def HEADER_START : Nat := 0xA5

/-- The receiver states of the `States` enum. -/
inductive RxState where
  | waitingForHeader
  | readingHeader
  | readingBody
  deriving DecidableEq

/-- Result of draining the receive buffer: the messages passed to handlers (in
order), the receiver state left behind, and whether a handler's `parse` raised
(aborting `process_in` with `MessageParseUnhandledError`). -/
structure ProcResult (M : Type) where
  handled : List M
  finalState : RxState
  parseError : Bool
  deriving DecidableEq

/-- The receive loop of `Transceiver.process_in`, processing buffered bytes
until too little data remains (the in-waiting guards of the `max_packets`
bounded loop, with `max_packets` larger than the buffer could require).

`registry` maps a message type id to the `parse` function of its registered
handler; `msgLen` and `runningCrc` model the `_msg_len` and
`_msg_running_crc16` fields. A `waitingForHeader` step consumes one byte;
`readingHeader` consumes the four header bytes and validates the CRC-8;
`readingBody` consumes message type, data and footer, validates the CRC-16,
and hands the data of a registered message type to its handler. -/
def procIn (registry : Nat → Option (List Nat → Option M)) :
    RxState → Nat → Nat → List Nat → ProcResult M
  | .waitingForHeader, _, _, [] => ⟨[], .waitingForHeader, false⟩
  | .waitingForHeader, ml, rc, b :: rest =>
    if b = HEADER_START then procIn registry .readingHeader ml rc rest
    else procIn registry .waitingForHeader ml rc rest
  | .readingHeader, ml, rc, input =>
    if input.length < 4 then ⟨[], .readingHeader, false⟩
    else
      let headerBytes := input.take 4
      let msgLen := headerBytes.getD 0 0 + 256 * headerBytes.getD 1 0
      let receivedCrc8 := headerBytes.getD 3 0
      if crc8 (HEADER_START :: headerBytes.take 3) = receivedCrc8 then
        procIn registry .readingBody msgLen (crc16 (HEADER_START :: headerBytes))
          (input.drop 4)
      else procIn registry .waitingForHeader ml rc (input.drop 4)
  | .readingBody, msgLen, rc, input =>
    if input.length < 2 + msgLen + 2 then ⟨[], .readingBody, false⟩
    else
      let msgTypeRaw := input.take 2
      let msgData := (input.drop 2).take msgLen
      let footerRaw := ((input.drop 2).drop msgLen).take 2
      let msgType := msgTypeRaw.getD 0 0 + 256 * msgTypeRaw.getD 1 0
      let receivedCrc16 := footerRaw.getD 0 0 + 256 * footerRaw.getD 1 0
      let rest := ((input.drop 2).drop msgLen).drop 2
      if crc16 (msgTypeRaw ++ msgData) rc = receivedCrc16 then
        match registry msgType with
        | none => procIn registry .waitingForHeader 0 0 rest
        | some parse =>
          match parse msgData with
          | none => ⟨[], .waitingForHeader, true⟩
          | some m =>
            let r := procIn registry .waitingForHeader 0 0 rest
            ⟨m :: r.handled, r.finalState, r.parseError⟩
      else procIn registry .waitingForHeader msgLen rc rest
termination_by _ _ _ input => input.length
decreasing_by
  all_goals simp_all [List.length_drop]
  all_goals omega

/-- `process_in` starting from a freshly constructed transceiver
(`WAITING_FOR_HEADER`, `_msg_len = 0`, `_msg_running_crc16 = 0`). -/
def processIn (registry : Nat → Option (List Nat → Option M)) (input : List Nat) :
    ProcResult M :=
  procIn registry .waitingForHeader 0 0 input

/-- The header `b"\xA5" + struct.pack("<HB", len(data), seq_num)` built by
`Transceiver.send`; `struct.pack("<H", n)` writes `n % 256` then `n / 256`
for `n < 65536`, and `struct.pack("B", s)` writes `s < 256` as one byte. -/
def mkHeader (dataLen seq : Nat) : List Nat :=
  [HEADER_START, dataLen % 256, dataLen / 256, seq]

/-- The byte package built by `Transceiver.send` for serialized data `data`,
message type `typeId` and sequence number `seq`: header, CRC-8 of the header,
little-endian message type, data, and little-endian CRC-16 of everything
before the footer. -/
def sendFrame (typeId seq : Nat) (data : List Nat) : List Nat :=
  let header := mkHeader data.length seq ++ [crc8 (mkHeader data.length seq)]
  let body := [typeId % 256, typeId / 256] ++ data
  let footer := crc16 (header ++ body)
  header ++ body ++ [footer % 256, footer / 256]

/-- A handler parse function recognizing only the serialized body `[2, 3]`. -/
def exParse23 : List Nat → Option Nat := fun d => if d = [2, 3] then some 23 else none

/-- A handler registry with `exParse23` registered under message type 5. -/
def exRegistry7 : Nat → Option (List Nat → Option Nat) := fun t =>
  if t = 5 then some exParse23 else none

/-- A handler parse function that accepts any body, reporting its length. -/
def exParseLen : List Nat → Option Nat := fun d => some d.length

/-- A handler registry with handlers registered for message types 1 and 2. -/
def exRegistryC4 : Nat → Option (List Nat → Option Nat) := fun t =>
  if t = 1 ∨ t = 2 then some exParseLen else none

/-! ## TimestampedHistoryBuffer (src/time/_timestamped_history_buffer.py) -/

/-- State of a `TimestampedHistoryBuffer`: the parallel `_keys` and `_data`
lists plus the configuration. Timestamp keys and the maximum entry age are
microsecond counts (arbitrary-precision Python ints), modelled as integers. -/
structure TimestampedHistoryBuffer (Value : Type) where
  keys : List Int
  data : List Value
  max_entries : Nat
  maximum_entry_age : Int

namespace TimestampedHistoryBuffer

variable {Value : Type} {A : Type}

/-- `num_entries`: `len(self._data)`. -/
def num_entries (buf : TimestampedHistoryBuffer Value) : Nat := buf.data.length

/-- `oldest_timestamp`: `None` when `_data` is empty, else `_keys[0]`
(an out-of-range index, impossible in parallel-list states, is modelled
with the default of `getD`). -/
def oldest_timestamp (buf : TimestampedHistoryBuffer Value) : Option Int :=
  if buf.data.length = 0 then none else some (buf.keys.getD 0 0)

/-- `latest_timestamp`: `None` when `_data` is empty, else `_keys[-1]`. -/
def latest_timestamp (buf : TimestampedHistoryBuffer Value) : Option Int :=
  if buf.data.length = 0 then none else some (buf.keys.getLastD 0)

/-- `clear`: clears only `self._data`, leaving `self._keys` in place, exactly
as the method body `self._data.clear()` does. -/
def clear (buf : TimestampedHistoryBuffer Value) : TimestampedHistoryBuffer Value :=
  { buf with data := [] }

/-- `apply(func)`: `[func(key) for key in self._keys]`. -/
def apply (buf : TimestampedHistoryBuffer Value) (func : Int → A) : List A :=
  buf.keys.map func

/-- `_remove_expired_items`: pops the front of both lists while
`len(self._data) > self._max_entries or ((oldest := self.oldest_timestamp) and
abs(latest - oldest) > self._maximum_entry_age)` holds. A `Timestamp` object
is always truthy, so the walrus conjunct is just a `None` check, which fails
exactly when `_data` is empty; with `_data` empty the size conjunct
`0 > max_entries` is false as well, so the empty case stops immediately.
Recursion is on `_data`, which each iteration shortens. -/
def _remove_expired_items (maxE : Nat) (maxA latest : Int) :
    List Int → List Value → List Int × List Value
  | keys, [] => (keys, [])
  | keys, d :: ds =>
    if (d :: ds).length > maxE ∨ |latest - keys.getD 0 0| > maxA then
      _remove_expired_items maxE maxA latest keys.tail ds
    else (keys, d :: ds)

/-- The raised `BufferEntryTooOldError`. -/
inductive AddError where
  | bufferEntryTooOld
  deriving DecidableEq

/-- The raise condition of `add`: a latest timestamp exists and
`timestamp <= latest_timestamp`. -/
def entry_too_old (buf : TimestampedHistoryBuffer Value) (timestamp : Int) : Bool :=
  match buf.latest_timestamp with
  | some latest => timestamp ≤ latest
  | none => false

/-- `add`: raises (returning the untouched buffer, as the raise precedes all
mutation) or appends the entry and evicts expired or excess entries. -/
def add (buf : TimestampedHistoryBuffer Value) (timestamp : Int) (value : Value) :
    Option AddError × TimestampedHistoryBuffer Value :=
  if entry_too_old buf timestamp then (some .bufferEntryTooOld, buf)
  else
    let p := _remove_expired_items buf.max_entries buf.maximum_entry_age timestamp
      (buf.keys ++ [timestamp]) (buf.data ++ [value])
    (none, { buf with keys := p.1, data := p.2 })

/-- Python `bisect.bisect_left` applied to the key list: the number of leading
keys strictly below the probe, which on sorted input is the binary search's
documented insertion point. -/
def bisect_left (keys : List Int) (t : Int) : Nat :=
  (keys.takeWhile (fun k => decide (k < t))).length

/-- `search(timestamp)`: `None` outside the stored window, otherwise the value
whose key is nearest (ties to the later key), located with `bisect_left`.
In-range Python indexing `self._data[...]` is modelled with `get?`. -/
def search (buf : TimestampedHistoryBuffer Value) (timestamp : Int) : Option Value :=
  if buf.data.length = 0 then none
  else
    match buf.oldest_timestamp, buf.latest_timestamp with
    | some oldest, some latest =>
      if timestamp < oldest ∨ timestamp > latest then none
      else
        let pos := bisect_left buf.keys timestamp
        if pos = 0 then buf.data.get? pos
        else if pos = buf.keys.length then buf.data.getLast?
        else
          let earlier_t := buf.keys.getD (pos - 1) 0
          let later_t := buf.keys.getD pos 0
          let closest_pos :=
            if |earlier_t - timestamp| < |later_t - timestamp| then pos - 1 else pos
          buf.data.get? closest_pos
    | _, _ => none

end TimestampedHistoryBuffer

/-- The buffer is reachable through `__init__` and a sequence of successful
`add` calls: parallel lists, strictly increasing keys, positive bounds. -/
def BufferWF {Value : Type} (buf : TimestampedHistoryBuffer Value) : Prop :=
  buf.keys.length = buf.data.length ∧ buf.keys.Sorted (· < ·)
    ∧ 0 < buf.max_entries ∧ 0 < buf.maximum_entry_age

/-! ## select_target (src/target_selection/_select_target.py) -/

/-- The loop body of `_evaluate_target`: accumulate `weight * rule_score` over
the rules, returning `None` as soon as a rule scores the target `None`
(invalid). Scores and weights are Python floats, modelled as rationals. -/
def evaluate_loop {T : Type} : List ((T → Option ℚ) × ℚ) → T → ℚ → Option ℚ
  | [], _, weighted_score => some weighted_score
  | (rule, weight) :: rest, target, weighted_score =>
    match rule target with
    | none => none
    | some rule_score => evaluate_loop rest target (weighted_score + weight * rule_score)

/-- `_evaluate_target(rules, target)`. -/
def _evaluate_target {T : Type} (rules : List ((T → Option ℚ) × ℚ)) (target : T) :
    Option ℚ :=
  evaluate_loop rules target 0

/-- `_is_under_maximum_score` inside `select_target`. -/
def _is_under_maximum_score (maximum_score_threshold : Option ℚ) (score : ℚ) : Prop :=
  match maximum_score_threshold with
  | none => True
  | some m => score < m

instance (thr : Option ℚ) (s : ℚ) : Decidable (_is_under_maximum_score thr s) := by
  unfold _is_under_maximum_score
  rcases thr with _ | m
  · exact inferInstanceAs (Decidable True)
  · exact inferInstanceAs (Decidable (s < m))

/-- The entry a target contributes to `valid_targets`. -/
def valid_entry {T : Type} (thr : Option ℚ) (rules : List ((T → Option ℚ) × ℚ))
    (target : T) : Option (T × ℚ) :=
  match _evaluate_target rules target with
  | none => none
  | some score => if _is_under_maximum_score thr score then some (target, score) else none

/-- Python `min(xs, key=f)` scanning tail `xs` with current minimum `acc`:
a later element replaces the current one only when strictly smaller. -/
def pyMin {T : Type} (f : T → ℚ) : T → List T → T
  | acc, [] => acc
  | acc, x :: xs => pyMin f (if f x < f acc then x else acc) xs

/-- `select_target(config, rules, targets)`: the valid target of minimal
weighted score, `None` when no target is valid. -/
def select_target {T : Type} (maximum_score_threshold : Option ℚ)
    (rules : List ((T → Option ℚ) × ℚ)) (targets : List T) : Option T :=
  match targets.filterMap (valid_entry maximum_score_threshold rules) with
  | [] => none
  | v :: vs => some (pyMin (fun p => p.2) v vs).1

/-! ## Kalman tracked target (src/target_tracker/_kalman_tracked_target.py) -/

/-- A 3×3 identity (`np.eye(3)`) entry. -/
def eye (i j : Fin 3) : ℚ := if i = j then 1 else 0

/-- `var_to_covar`: einsum `"ij,ik,jl,im,jn->klmn"` of the variance tensor
with four 3×3 identities. -/
def var_to_covar (var : Fin 3 → Fin 3 → ℚ) : Fin 3 → Fin 3 → Fin 3 → Fin 3 → ℚ :=
  fun k l m n => ∑ i : Fin 3, ∑ j : Fin 3, var i j * eye i k * eye j l * eye i m * eye j n

/-- `KalmanTrackedTarget.__init__`:
`_x = np.array([list(position), [0, 0, 0], [0, 0, 0]])`. -/
def kalman_init_x (measPos : Fin 3 → ℚ) : Fin 3 → Fin 3 → ℚ :=
  fun i j => if i = 0 then measPos j else 0

/-- `KalmanTrackedTarget.__init__`: the variance rows passed to `var_to_covar`:
the diagonal of the measurement covariance, then
`initial_derivative_variance[:3]` and `initial_derivative_variance[3:]`. -/
def kalman_init_var (measCov : Fin 3 → Fin 3 → ℚ) (idv : Fin 6 → ℚ) : Fin 3 → Fin 3 → ℚ :=
  fun i j =>
    if i = 0 then measCov j j
    else if i = 1 then idv (Fin.castLE (by norm_num) j)
    else idv (j.addNat 3)

/-- `KalmanTrackedTarget.__init__`: `_s = var_to_covar(...)`. -/
def kalman_init_s (measCov : Fin 3 → Fin 3 → ℚ) (idv : Fin 6 → ℚ) :
    Fin 3 → Fin 3 → Fin 3 → Fin 3 → ℚ :=
  var_to_covar (kalman_init_var measCov idv)

/-- `safe_max_float = 1e12` in
`_cv_kalman_tracked_target._build_initial_covariance`. -/
def safe_max_float : ℚ := 10 ^ 12

/-- `np.array([safe_max_float] * num_independent_vars + initial_derivative_variance)`
of `_build_initial_covariance`, with three independent variables. -/
def diag_uncertainties (idv : Fin 6 → ℚ) : Fin 9 → ℚ :=
  fun i => if (i : ℕ) < 3 then safe_max_float
    else idv ⟨(i : ℕ) - 3, by have := i.isLt; omega⟩

/-- `_cv_kalman_tracked_target._build_initial_covariance`: `np.diag` of the
uncertainty vector. -/
def _build_initial_covariance (idv : Fin 6 → ℚ) : Fin 9 → Fin 9 → ℚ :=
  fun i j => if i = j then diag_uncertainties idv i else 0

/-! ## Orientations and transforms (src/spatial/_orientation.py,
src/spatial/_transform.py) -/

@[ext] structure Vec3 where
  x : ℝ
  y : ℝ
  z : ℝ

@[ext] structure Quat where
  w : ℝ
  x : ℝ
  y : ℝ
  z : ℝ

/-- Squared Euclidean norm of the quaternion components. -/
def qnormSq (q : Quat) : ℝ := q.w ^ 2 + q.x ^ 2 + q.y ^ 2 + q.z ^ 2

/-- `transforms3d.quaternions.qnorm`: `sqrt(dot(q, q))`. -/
noncomputable def qnorm (q : Quat) : ℝ := Real.sqrt (qnormSq q)

/-- `Orientation._normalize_in_place`: each component divided by the norm. -/
noncomputable def _normalize_in_place (q : Quat) : Quat :=
  ⟨q.w / qnorm q, q.x / qnorm q, q.y / qnorm q, q.z / qnorm q⟩

/-- The `Orientation` dataclass constructor: `__post_init__` normalizes. -/
noncomputable def mkOrientation (w x y z : ℝ) : Quat := _normalize_in_place ⟨w, x, y, z⟩

/-- `transforms3d.quaternions.qconjugate`. -/
def qconjugate (q : Quat) : Quat := ⟨q.w, -q.x, -q.y, -q.z⟩

/-- `Orientation.conjugate`: `qconjugate` fed back through `from_values`,
whose constructed `Orientation` normalizes again. -/
noncomputable def conjugateOrientation (q : Quat) : Quat := _normalize_in_place (qconjugate q)

/-- `transforms3d.quaternions.qmult`: the Hamilton product. -/
def qmult (a b : Quat) : Quat :=
  ⟨a.w * b.w - a.x * b.x - a.y * b.y - a.z * b.z,
   a.w * b.x + a.x * b.w + a.y * b.z - a.z * b.y,
   a.w * b.y - a.x * b.z + a.y * b.w + a.z * b.x,
   a.w * b.z + a.x * b.y - a.y * b.x + a.z * b.w⟩

/-- The pure quaternion `varr` with `varr[1:] = v`. -/
def quatOfVector (v : Vec3) : Quat := ⟨0, v.x, v.y, v.z⟩

/-- `transforms3d.quaternions.rotate_vector`:
`qmult(q, qmult(varr, qconjugate(q)))[1:]`. -/
def rotate_vector (v : Vec3) (q : Quat) : Vec3 :=
  ⟨(qmult q (qmult (quatOfVector v) (qconjugate q))).x,
   (qmult q (qmult (quatOfVector v) (qconjugate q))).y,
   (qmult q (qmult (quatOfVector v) (qconjugate q))).z⟩

/-- `Transform`: a translation (target origin in the source frame) and a
rotation (target orientation relative to the source frame). -/
structure Transform where
  translation : Vec3
  rotation : Quat

/-- `Transform.apply_to_vector`: rotate by the conjugate of the rotation. -/
noncomputable def Transform.apply_to_vector (T : Transform) (v : Vec3) : Vec3 :=
  rotate_vector v (conjugateOrientation T.rotation)

/-- `Transform.apply_to_position`: subtract the translation, then rotate. -/
noncomputable def Transform.apply_to_position (T : Transform) (p : Vec3) : Vec3 :=
  T.apply_to_vector ⟨p.x - T.translation.x, p.y - T.translation.y, p.z - T.translation.z⟩

/-- `Transform.get_inverse`: conjugate rotation, and the negated translation
rotated by that conjugate. -/
noncomputable def Transform.get_inverse (T : Transform) : Transform :=
  ⟨rotate_vector ⟨-T.translation.x, -T.translation.y, -T.translation.z⟩
      (conjugateOrientation T.rotation),
   conjugateOrientation T.rotation⟩

/-! ## Theorems: the CRC tables and check vectors -/

theorem crc8Table_eq : CRC8_TABLE = crc8TableValues := by rfl

theorem crc16Table_eq : CRC16_TABLE = crc16TableValues := by rfl

theorem crc8Update_eq : crc8Update = fun c b => crc8TableValues.getD (c ^^^ b) 0 := by
  funext c b
  rw [crc8Update, crc8Table_eq]

theorem crc16Update_eq :
    crc16Update = fun c b => (c >>> 8) ^^^ crc16TableValues.getD ((c ^^^ b) &&& 0xFF) 0 := by
  funext c b
  rw [crc16Update, crc16Table_eq]

theorem crc8_check_vector : crc8 [49, 50, 51, 52, 53, 54, 55, 56, 57] 0 = 0xA1 := by
  simp only [crc8, crc8Update_eq]
  decide

theorem crc8_check_vector_ff : crc8 [49, 50, 51, 52, 53, 54, 55, 56, 57] 0xFF = 0x0B := by
  simp only [crc8, crc8Update_eq]
  decide

theorem crc16_check_vector : crc16 [49, 50, 51, 52, 53, 54, 55, 56, 57] 0xFFFF = 0x6F91 := by
  simp only [crc16, crc16Update_eq]
  decide

/-- Claim C8 counterexample: over the bytes of `"123456789"` with the default
initial value `0xFF`, `crc8` returns `0x0B`, not the claimed CRC-8/MAXIM-DOW
check value `0xA1` (which the table only reproduces with initial value 0). -/
theorem crc8_default_init_counterexample :
    crc8 [49, 50, 51, 52, 53, 54, 55, 56, 57] 0xFF = 0x0B ∧ (0x0B : Nat) ≠ 0xA1 :=
  ⟨crc8_check_vector_ff, by decide⟩

/-- Claim C8 (amended): over the bytes of `"123456789"`, `crc8` returns `0x0B`
with its default initial value `0xFF` and the CRC-8/MAXIM-DOW check value
`0xA1` with initial value 0, while `crc16` with its default initial value
`0xFFFF` returns the CRC-16/MCRF4XX check value `0x6F91`. -/
theorem crc_check_vectors :
    crc8 [49, 50, 51, 52, 53, 54, 55, 56, 57] 0xFF = 0x0B
    ∧ crc8 [49, 50, 51, 52, 53, 54, 55, 56, 57] 0 = 0xA1
    ∧ crc16 [49, 50, 51, 52, 53, 54, 55, 56, 57] 0xFFFF = 0x6F91 :=
  ⟨crc8_check_vector_ff, crc8_check_vector, crc16_check_vector⟩

theorem crc8Table_bitsum :
    ∀ a : Fin 256, crc8TableValues.getD a.val 0 = bitsum crc8Gens a.val := by decide

theorem crc16Table_bitsum :
    ∀ a : Fin 256, crc16TableValues.getD a.val 0 = bitsum crc16Gens a.val := by decide

theorem xor_left_comm (a b c : Nat) : a ^^^ (b ^^^ c) = b ^^^ (a ^^^ c) := by
  rw [← Nat.xor_assoc, Nat.xor_comm a b, Nat.xor_assoc]

theorem bitsum_xor (cs : List Nat) (a b : Nat) :
    bitsum cs (a ^^^ b) = bitsum cs a ^^^ bitsum cs b := by
  induction cs generalizing a b with
  | nil => simp [bitsum]
  | cons c cs ih =>
    simp only [bitsum, Nat.xor_div_two, ih]
    rcases Nat.mod_two_eq_zero_or_one a with ha | ha <;>
      rcases Nat.mod_two_eq_zero_or_one b with hb | hb <;>
        simp [Nat.xor_mod_two_eq, Nat.add_mod, ha, hb, Nat.xor_assoc, xor_left_comm,
          Nat.xor_comm, Nat.xor_self, Nat.xor_zero, Nat.zero_xor, Nat.xor_cancel_left]

theorem bitsum_lt_two_pow (cs : List Nat) (n : Nat) (h : ∀ c ∈ cs, c < 2 ^ n) (a : Nat) :
    bitsum cs a < 2 ^ n := by
  induction cs generalizing a with
  | nil => simpa [bitsum] using Nat.pos_pow_of_pos n (by norm_num)
  | cons c cs ih =>
    simp only [bitsum]
    refine Nat.xor_lt_two_pow ?_ (ih (fun x hx => h x (List.mem_cons_of_mem _ hx)) _)
    split
    · exact h c (List.mem_cons_self _ _)
    · exact pow_pos (by norm_num) n

theorem crc8_lookup_eq {x : Nat} (hx : x < 256) :
    CRC8_TABLE.getD x 0 = bitsum crc8Gens x := by
  rw [crc8Table_eq]; exact crc8Table_bitsum ⟨x, hx⟩

theorem crc16_lookup_eq {x : Nat} (hx : x < 256) :
    CRC16_TABLE.getD x 0 = bitsum crc16Gens x := by
  rw [crc16Table_eq]; exact crc16Table_bitsum ⟨x, hx⟩

theorem crc8Gens_lt : ∀ c ∈ crc8Gens, c < 2 ^ 8 := by decide

theorem crc16Gens_lt : ∀ c ∈ crc16Gens, c < 2 ^ 16 := by decide

theorem crc8_bitsum_ne_zero : ∀ a : Fin 256, a.val ≠ 0 → bitsum crc8Gens a.val ≠ 0 := by decide

theorem crc16_bitsum_ge : ∀ a : Fin 256, a.val ≠ 0 → 256 ≤ bitsum crc16Gens a.val := by decide

theorem xor_lt_256 {a b : Nat} (ha : a < 256) (hb : b < 256) : a ^^^ b < 256 :=
  Nat.xor_lt_two_pow (n := 8) (by simpa using ha) (by simpa using hb)

theorem xor_lt_65536 {a b : Nat} (ha : a < 65536) (hb : b < 65536) : a ^^^ b < 65536 :=
  Nat.xor_lt_two_pow (n := 16) (by simpa using ha) (by simpa using hb)

/-- The CRC-8 table lookup is injective on byte indices. -/
theorem crc8_lookup_inj {u v : Nat} (hu : u < 256) (hv : v < 256) (hne : u ≠ v) :
    CRC8_TABLE.getD u 0 ≠ CRC8_TABLE.getD v 0 := by
  rw [crc8_lookup_eq hu, crc8_lookup_eq hv]
  intro h
  have h2 : bitsum crc8Gens (u ^^^ v) = 0 := by
    rw [bitsum_xor, h, Nat.xor_self]
  exact crc8_bitsum_ne_zero ⟨u ^^^ v, xor_lt_256 hu hv⟩ (Nat.xor_ne_zero.mpr hne) h2

/-- The CRC-16 table lookup is injective on byte indices. -/
theorem crc16_lookup_inj {u v : Nat} (hu : u < 256) (hv : v < 256) (hne : u ≠ v) :
    CRC16_TABLE.getD u 0 ≠ CRC16_TABLE.getD v 0 := by
  rw [crc16_lookup_eq hu, crc16_lookup_eq hv]
  intro h
  have h2 : bitsum crc16Gens (u ^^^ v) = 0 := by
    rw [bitsum_xor, h, Nat.xor_self]
  have h3 : 256 ≤ bitsum crc16Gens (u ^^^ v) :=
    crc16_bitsum_ge ⟨u ^^^ v, xor_lt_256 hu hv⟩ (Nat.xor_ne_zero.mpr hne)
  omega

theorem crc8Update_lt {s b : Nat} (hs : s < 256) (hb : b < 256) : crc8Update s b < 256 := by
  rw [crc8Update, crc8_lookup_eq (xor_lt_256 hs hb)]
  simpa using bitsum_lt_two_pow crc8Gens 8 crc8Gens_lt (s ^^^ b)

theorem crc8Update_inj_state {s1 s2 b : Nat} (h1 : s1 < 256) (h2 : s2 < 256) (hb : b < 256)
    (hne : s1 ≠ s2) : crc8Update s1 b ≠ crc8Update s2 b := by
  apply crc8_lookup_inj (xor_lt_256 h1 hb) (xor_lt_256 h2 hb)
  exact fun h => hne (Nat.xor_left_inj.mp h)

theorem crc8Update_inj_byte {s b b' : Nat} (hs : s < 256) (hb : b < 256) (hb' : b' < 256)
    (hne : b ≠ b') : crc8Update s b ≠ crc8Update s b' := by
  apply crc8_lookup_inj (xor_lt_256 hs hb) (xor_lt_256 hs hb')
  exact fun h => hne (Nat.xor_right_inj.mp h)

theorem crc8_fold_lt (data : List Nat) (hd : ∀ b ∈ data, b < 256) {s : Nat} (hs : s < 256) :
    data.foldl crc8Update s < 256 := by
  induction data generalizing s with
  | nil => simpa
  | cons b bs ih =>
    simp only [List.foldl_cons]
    exact ih (fun x hx => hd x (List.mem_cons_of_mem _ hx))
      (crc8Update_lt hs (hd b (List.mem_cons_self _ _)))

theorem crc8_fold_inj (data : List Nat) (hd : ∀ b ∈ data, b < 256) {s1 s2 : Nat}
    (h1 : s1 < 256) (h2 : s2 < 256) (hne : s1 ≠ s2) :
    data.foldl crc8Update s1 ≠ data.foldl crc8Update s2 := by
  induction data generalizing s1 s2 with
  | nil => simpa
  | cons b bs ih =>
    simp only [List.foldl_cons]
    have hb := hd b (List.mem_cons_self _ _)
    exact ih (fun x hx => hd x (List.mem_cons_of_mem _ hx))
      (crc8Update_lt h1 hb) (crc8Update_lt h2 hb) (crc8Update_inj_state h1 h2 hb hne)

/-- Changing exactly one input byte always changes the CRC-8 value. -/
theorem crc8_single_byte_error (pre suf : List Nat) {b b' : Nat} (init : Nat)
    (hpre : ∀ x ∈ pre, x < 256) (hsuf : ∀ x ∈ suf, x < 256)
    (hb : b < 256) (hb' : b' < 256) (hinit : init < 256) (hne : b ≠ b') :
    crc8 (pre ++ b :: suf) init ≠ crc8 (pre ++ b' :: suf) init := by
  simp only [crc8, List.foldl_append, List.foldl_cons]
  have hs : pre.foldl crc8Update init < 256 := crc8_fold_lt pre hpre hinit
  exact crc8_fold_inj suf hsuf (crc8Update_lt hs hb) (crc8Update_lt hs hb')
    (crc8Update_inj_byte hs hb hb' hne)
theorem and255_lt (x : Nat) : x &&& 0xFF < 256 :=
  Nat.lt_succ_of_le Nat.and_le_right

theorem and255_eq_mod (x : Nat) : x &&& 0xFF = x % 256 := by
  simpa using Nat.and_pow_two_sub_one_eq_mod x 8

theorem mask16_of_lt {x : Nat} (h : x < 65536) : x &&& 0xFFFF = x := by
  simpa using Nat.and_pow_two_sub_one_of_lt_two_pow (n := 16) (by simpa using h)

theorem xor_byte_and255 (s : Nat) {b : Nat} (hb : b < 256) :
    (s ^^^ b) &&& 0xFF = (s &&& 0xFF) ^^^ b := by
  rw [Nat.and_xor_distrib_right]
  congr 1
  simpa using Nat.and_pow_two_sub_one_of_lt_two_pow (n := 8) (by simpa using hb)

theorem shiftRight8_lt {s : Nat} (hs : s < 65536) : s >>> 8 < 256 := by
  rw [Nat.shiftRight_eq_div_pow]
  have h28 : (2:Nat) ^ 8 = 256 := by norm_num
  rw [h28]; omega

theorem shiftRight8_eq_div (s : Nat) : s >>> 8 = s / 256 := by
  rw [Nat.shiftRight_eq_div_pow]

theorem crc16_lookup_lt {x : Nat} (hx : x < 256) : CRC16_TABLE.getD x 0 < 65536 := by
  rw [crc16_lookup_eq hx]
  simpa using bitsum_lt_two_pow crc16Gens 16 crc16Gens_lt x

theorem crc16Update_lt (b : Nat) {s : Nat} (hs : s < 65536) : crc16Update s b < 65536 := by
  rw [crc16Update]
  exact xor_lt_65536 (lt_trans (shiftRight8_lt hs) (by norm_num)) (crc16_lookup_lt (and255_lt _))

theorem xor_swap_eq {a x b y : Nat} (h : a ^^^ x = b ^^^ y) : x ^^^ y = a ^^^ b := by
  calc x ^^^ y = (a ^^^ (a ^^^ x)) ^^^ y := by rw [Nat.xor_cancel_left]
    _ = (a ^^^ (b ^^^ y)) ^^^ y := by rw [h]
    _ = a ^^^ ((b ^^^ y) ^^^ y) := by rw [Nat.xor_assoc]
    _ = a ^^^ b := by rw [Nat.xor_cancel_right]

theorem crc16Update_inj_byte {s b b' : Nat} (hb : b < 256) (hb' : b' < 256)
    (hne : b ≠ b') : crc16Update s b ≠ crc16Update s b' := by
  simp only [crc16Update, xor_byte_and255 s hb, xor_byte_and255 s hb']
  intro h
  have h2 := Nat.xor_right_inj.mp h
  have hlo : s &&& 0xFF < 256 := and255_lt s
  exact crc16_lookup_inj (xor_lt_256 hlo hb) (xor_lt_256 hlo hb')
    (fun he => hne (Nat.xor_right_inj.mp he)) h2

theorem crc16Update_inj_state {s1 s2 b : Nat} (h1 : s1 < 65536) (h2 : s2 < 65536)
    (hb : b < 256) (hne : s1 ≠ s2) : crc16Update s1 b ≠ crc16Update s2 b := by
  simp only [crc16Update, xor_byte_and255 _ hb]
  intro h
  have hlo1 : s1 &&& 0xFF < 256 := and255_lt s1
  have hlo2 : s2 &&& 0xFF < 256 := and255_lt s2
  have hhi1 : s1 >>> 8 < 256 := shiftRight8_lt h1
  have hhi2 : s2 >>> 8 < 256 := shiftRight8_lt h2
  by_cases hlo : s1 &&& 0xFF = s2 &&& 0xFF
  · rw [hlo] at h
    have hhi : s1 >>> 8 = s2 >>> 8 := Nat.xor_left_inj.mp h
    rw [shiftRight8_eq_div, shiftRight8_eq_div] at hhi
    rw [and255_eq_mod, and255_eq_mod] at hlo
    omega
  · have key := xor_swap_eq h
    rw [crc16_lookup_eq (xor_lt_256 hlo1 hb), crc16_lookup_eq (xor_lt_256 hlo2 hb),
      ← bitsum_xor] at key
    have huu : ((s1 &&& 0xFF) ^^^ b) ^^^ ((s2 &&& 0xFF) ^^^ b)
        = (s1 &&& 0xFF) ^^^ (s2 &&& 0xFF) := by
      simp [Nat.xor_assoc, Nat.xor_comm, xor_left_comm, Nat.xor_self, Nat.xor_zero,
        Nat.xor_cancel_left, Nat.xor_cancel_right]
    rw [huu] at key
    have hge : 256 ≤ bitsum crc16Gens ((s1 &&& 0xFF) ^^^ (s2 &&& 0xFF)) :=
      crc16_bitsum_ge ⟨_, xor_lt_256 hlo1 hlo2⟩ (Nat.xor_ne_zero.mpr hlo)
    have hlt : (s1 >>> 8) ^^^ (s2 >>> 8) < 256 := xor_lt_256 hhi1 hhi2
    omega

theorem crc16_fold_lt (data : List Nat) {s : Nat} (hs : s < 65536) :
    data.foldl crc16Update s < 65536 := by
  induction data generalizing s with
  | nil => simpa
  | cons b bs ih =>
    simp only [List.foldl_cons]
    exact ih (crc16Update_lt b hs)

theorem crc16_fold_inj (data : List Nat) (hd : ∀ b ∈ data, b < 256) {s1 s2 : Nat}
    (h1 : s1 < 65536) (h2 : s2 < 65536) (hne : s1 ≠ s2) :
    data.foldl crc16Update s1 ≠ data.foldl crc16Update s2 := by
  induction data generalizing s1 s2 with
  | nil => simpa
  | cons b bs ih =>
    simp only [List.foldl_cons]
    have hb := hd b (List.mem_cons_self _ _)
    exact ih (fun x hx => hd x (List.mem_cons_of_mem _ hx))
      (crc16Update_lt b h1) (crc16Update_lt b h2) (crc16Update_inj_state h1 h2 hb hne)

/-- Changing exactly one input byte always changes the CRC-16 value. -/
theorem crc16_single_byte_error (pre suf : List Nat) {b b' : Nat} (init : Nat)
    (hsuf : ∀ x ∈ suf, x < 256)
    (hb : b < 256) (hb' : b' < 256) (hinit : init < 65536) (hne : b ≠ b') :
    crc16 (pre ++ b :: suf) init ≠ crc16 (pre ++ b' :: suf) init := by
  simp only [crc16, List.foldl_append, List.foldl_cons]
  have hs : pre.foldl crc16Update init < 65536 := crc16_fold_lt pre hinit
  have hcore := crc16_fold_inj suf hsuf (crc16Update_lt b hs) (crc16Update_lt b' hs)
    (crc16Update_inj_byte hb hb' hne)
  rw [mask16_of_lt (crc16_fold_lt suf (crc16Update_lt b hs)),
    mask16_of_lt (crc16_fold_lt suf (crc16Update_lt b' hs))]
  exact hcore

/-- Incremental CRC-16 computation: the two-call pattern used by the transceiver
matches a single CRC over the concatenation. -/
theorem crc16_append (a b : List Nat) (init : Nat) (hinit : init < 65536) :
    crc16 (a ++ b) init = crc16 b (crc16 a init) := by
  simp only [crc16, List.foldl_append]
  rw [mask16_of_lt (crc16_fold_lt a hinit)]

theorem crc8_lt (data : List Nat) (hd : ∀ b ∈ data, b < 256) {init : Nat}
    (hinit : init < 256) : crc8 data init < 256 :=
  crc8_fold_lt data hd hinit

theorem crc16_lt (data : List Nat) (init : Nat) : crc16 data init < 65536 :=
  Nat.lt_succ_of_le Nat.and_le_right

/-! ## Theorems: the UART receive state machine -/

theorem procIn_nil {M : Type} (registry : Nat → Option (List Nat → Option M)) (ml rc : Nat) :
    procIn registry .waitingForHeader ml rc [] = ⟨[], .waitingForHeader, false⟩ := by
  rw [procIn]

theorem procIn_scan_prefix {M : Type} (registry : Nat → Option (List Nat → Option M))
    {pre : List Nat} (h : ∀ b ∈ pre, b ≠ HEADER_START) (ml rc : Nat) (l : List Nat) :
    procIn registry .waitingForHeader ml rc (pre ++ l)
      = procIn registry .waitingForHeader ml rc l := by
  induction pre with
  | nil => rw [List.nil_append]
  | cons b rest ih =>
    rw [List.cons_append, procIn, if_neg (h b (List.mem_cons_self _ _))]
    exact ih (fun x hx => h x (List.mem_cons_of_mem _ hx))

theorem procIn_scan {M : Type} (registry : Nat → Option (List Nat → Option M))
    {l : List Nat} (h : ∀ b ∈ l, b ≠ HEADER_START) (ml rc : Nat) :
    procIn registry .waitingForHeader ml rc l = ⟨[], .waitingForHeader, false⟩ := by
  have := procIn_scan_prefix registry h ml rc []
  rw [List.append_nil] at this
  rw [this, procIn_nil]


theorem procIn_header_pass {M : Type} (registry : Nat → Option (List Nat → Option M))
    (ml rc x1 x2 x3 x4 : Nat) (rest : List Nat)
    (h : crc8 [HEADER_START, x1, x2, x3] = x4) :
    procIn registry .readingHeader ml rc (x1 :: x2 :: x3 :: x4 :: rest)
      = procIn registry .readingBody (x1 + 256 * x2)
          (crc16 [HEADER_START, x1, x2, x3, x4]) rest := by
  rw [procIn]
  rw [if_neg (by simp)]
  show (if crc8 [HEADER_START, x1, x2, x3] = x4 then
      procIn registry .readingBody (x1 + 256 * x2)
        (crc16 [HEADER_START, x1, x2, x3, x4]) rest
    else procIn registry .waitingForHeader ml rc rest) = _
  rw [if_pos h]

theorem procIn_header_fail {M : Type} (registry : Nat → Option (List Nat → Option M))
    (ml rc x1 x2 x3 x4 : Nat) (rest : List Nat)
    (h : crc8 [HEADER_START, x1, x2, x3] ≠ x4) :
    procIn registry .readingHeader ml rc (x1 :: x2 :: x3 :: x4 :: rest)
      = procIn registry .waitingForHeader ml rc rest := by
  rw [procIn]
  rw [if_neg (by simp)]
  show (if crc8 [HEADER_START, x1, x2, x3] = x4 then
      procIn registry .readingBody (x1 + 256 * x2)
        (crc16 [HEADER_START, x1, x2, x3, x4]) rest
    else procIn registry .waitingForHeader ml rc rest) = _
  rw [if_neg h]

theorem procIn_body_pass {M : Type} (registry : Nat → Option (List Nat → Option M))
    (rc n y0 y1 f0 f1 : Nat) (msgData rest : List Nat) (hn : n = msgData.length)
    (h : crc16 (y0 :: y1 :: msgData) rc = f0 + 256 * f1) :
    procIn registry .readingBody n rc
        (y0 :: y1 :: (msgData ++ f0 :: f1 :: rest))
      = (match registry (y0 + 256 * y1) with
         | none => procIn registry .waitingForHeader 0 0 rest
         | some parse =>
           match parse msgData with
           | none => ⟨[], .waitingForHeader, true⟩
           | some m =>
             let r := procIn registry .waitingForHeader 0 0 rest
             ⟨m :: r.handled, r.finalState, r.parseError⟩) := by
  subst hn
  rw [procIn]
  rw [if_neg (by simp; omega)]
  simp [List.take_left, List.drop_left, h]

theorem procIn_body_fail {M : Type} (registry : Nat → Option (List Nat → Option M))
    (rc n y0 y1 f0 f1 : Nat) (msgData rest : List Nat) (hn : n = msgData.length)
    (h : crc16 (y0 :: y1 :: msgData) rc ≠ f0 + 256 * f1) :
    procIn registry .readingBody n rc
        (y0 :: y1 :: (msgData ++ f0 :: f1 :: rest))
      = procIn registry .waitingForHeader n rc rest := by
  subst hn
  rw [procIn]
  rw [if_neg (by simp; omega)]
  simp [List.take_left, List.drop_left, h]

/-- A `send` frame delivered intact, followed by bytes free of header-start
markers, is handled exactly once and leaves the receiver in
`WAITING_FOR_HEADER`. -/
theorem procIn_frame {M : Type} (registry : Nat → Option (List Nat → Option M))
    (typeId seq : Nat) (data : List Nat) (parse : List Nat → Option M) (msg : M)
    (post : List Nat) (ml rc : Nat)
    (hlen : data.length < 65536) (htype : typeId < 65536)
    (hreg : registry typeId = some parse) (hparse : parse data = some msg)
    (hpost : ∀ b ∈ post, b ≠ HEADER_START) :
    procIn registry .waitingForHeader ml rc (sendFrame typeId seq data ++ post)
      = ⟨[msg], .waitingForHeader, false⟩ := by
  set b1 := data.length % 256 with hb1def
  set b2 := data.length / 256 with hb2def
  set t0 := typeId % 256 with ht0def
  set t1 := typeId / 256 with ht1def
  set c8v := crc8 [HEADER_START, b1, b2, seq] with hc8def
  set footer := crc16 (HEADER_START :: b1 :: b2 :: seq :: c8v :: t0 :: t1 :: data)
    with hfdef
  have hsplit : sendFrame typeId seq data ++ post
      = HEADER_START :: b1 :: b2 :: seq :: c8v :: t0 :: t1 ::
        (data ++ footer % 256 :: footer / 256 :: post) := by
    simp [sendFrame, mkHeader, hfdef, hc8def]
  rw [hsplit, procIn, if_pos rfl, procIn_header_pass _ _ _ _ _ _ _ _ hc8def.symm]
  have hml : b1 + 256 * b2 = data.length := by rw [hb1def, hb2def]; omega
  rw [hml]
  have hfe : footer % 256 + 256 * (footer / 256) = footer := by omega
  have hcrc : crc16 (t0 :: t1 :: data) (crc16 [HEADER_START, b1, b2, seq, c8v])
      = footer % 256 + 256 * (footer / 256) := by
    rw [hfe, hfdef, ← crc16_append _ _ _ (by norm_num)]
    rfl
  rw [procIn_body_pass _ _ _ _ _ _ _ _ _ rfl hcrc]
  have hty : t0 + 256 * t1 = typeId := by rw [ht0def, ht1def]; omega
  rw [hty, hreg]
  simp only []
  rw [hparse]
  simp only []
  rw [procIn_scan registry hpost]

/-- Claim C4 (amended): single-byte corruption of a frame whose interior is
free of header-start bytes: the receiver drops the frame (by scanning, the
header CRC-8, or the body CRC-16), handles nothing, and ends up waiting for
a header. -/
theorem corrupted_frame_rejected {M : Type} (registry : Nat → Option (List Nat → Option M))
    (typeId seq : Nat) (data : List Nat) (i v : Nat)
    (hdata : ∀ b ∈ data, b < 256) (hlen : data.length < 65536)
    (hseq : seq < 256) (htype : typeId < 65536)
    (hA5 : ∀ b ∈ (sendFrame typeId seq data).tail, b ≠ HEADER_START)
    (hi : i < (sendFrame typeId seq data).length) (hv : v < 256)
    (hne : v ≠ (sendFrame typeId seq data).getD i 0) :
    processIn registry ((sendFrame typeId seq data).set i v)
      = ⟨[], .waitingForHeader, false⟩ := by
  set b1 := data.length % 256 with hb1def
  set b2 := data.length / 256 with hb2def
  set t0 := typeId % 256 with ht0def
  set t1 := typeId / 256 with ht1def
  set c8v := crc8 [HEADER_START, b1, b2, seq] with hc8def
  set footer := crc16 (HEADER_START :: b1 :: b2 :: seq :: c8v :: t0 :: t1 :: data)
    with hfdef
  have hsplit : sendFrame typeId seq data
      = HEADER_START :: b1 :: b2 :: seq :: c8v :: t0 :: t1 ::
        (data ++ [footer % 256, footer / 256]) := by
    simp [sendFrame, mkHeader, hfdef, hc8def]
  -- byte bounds for the frame components
  have hb1lt : b1 < 256 := by rw [hb1def]; omega
  have hb2lt : b2 < 256 := by rw [hb2def]; omega
  have ht0lt : t0 < 256 := by rw [ht0def]; omega
  have ht1lt : t1 < 256 := by rw [ht1def]; omega
  have hc8lt : c8v < 256 := by
    rw [hc8def]
    refine crc8_lt _ ?_ (by norm_num)
    intro x hx
    simp only [List.mem_cons, List.not_mem_nil, or_false] at hx
    rcases hx with rfl | rfl | rfl | rfl
    · norm_num [HEADER_START]
    · exact hb1lt
    · exact hb2lt
    · exact hseq
  have hflt : footer < 65536 := by rw [hfdef]; exact crc16_lt _ _
  have hf0lt : footer % 256 < 256 := by omega
  have hf1lt : footer / 256 < 256 := by omega
  have hfe : footer % 256 + 256 * (footer / 256) = footer := by omega
  have hml : b1 + 256 * b2 = data.length := by rw [hb1def, hb2def]; omega
  -- the CRC-16 the receiver recomputes over an intact header
  have hbodycrc : crc16 (t0 :: t1 :: data) (crc16 [HEADER_START, b1, b2, seq, c8v])
      = footer % 256 + 256 * (footer / 256) := by
    rw [hfe, hfdef, ← crc16_append _ _ _ (by norm_num)]
    rfl
  rw [hsplit] at hA5 hi hne ⊢
  simp only [List.tail_cons] at hA5
  simp only [List.length_cons, List.length_append, List.length_cons, List.length_nil] at hi
  -- membership helpers for the scan lemmas
  have hA5body : ∀ b ∈ t0 :: t1 :: (data ++ [footer % 256, footer / 256]),
      b ≠ HEADER_START := by
    intro b hb
    exact hA5 b (by simp only [List.mem_cons] at hb ⊢; tauto)
  unfold processIn
  rcases i with _ | _ | _ | _ | _ | k
  · -- i = 0 : the header-start byte is destroyed; everything is scanned away
    rw [List.set_cons_zero, procIn, if_neg (by simpa using hne)]
    exact procIn_scan registry hA5 0 0
  · -- i = 1 : length low byte corrupted, header CRC fails
    show procIn registry .waitingForHeader 0 0
        (HEADER_START :: v :: b2 :: seq :: c8v :: t0 :: t1 ::
          (data ++ [footer % 256, footer / 256])) = _
    rw [procIn, if_pos rfl]
    have hcc : crc8 [HEADER_START, v, b2, seq] ≠ c8v := by
      rw [hc8def]
      exact crc8_single_byte_error [HEADER_START] [b2, seq] 0xFF (by decide)
        (by intro x hx; simp only [List.mem_cons, List.not_mem_nil, or_false] at hx
            rcases hx with rfl | rfl
            exacts [hb2lt, hseq])
        hv hb1lt (by decide) (by simpa using hne)
    rw [procIn_header_fail _ _ _ _ _ _ _ _ hcc]
    exact procIn_scan registry hA5body 0 0
  · -- i = 2 : length high byte corrupted, header CRC fails
    show procIn registry .waitingForHeader 0 0
        (HEADER_START :: b1 :: v :: seq :: c8v :: t0 :: t1 ::
          (data ++ [footer % 256, footer / 256])) = _
    rw [procIn, if_pos rfl]
    have hcc : crc8 [HEADER_START, b1, v, seq] ≠ c8v := by
      rw [hc8def]
      exact crc8_single_byte_error [HEADER_START, b1] [seq] 0xFF
        (by intro x hx; simp only [List.mem_cons, List.not_mem_nil, or_false] at hx
            rcases hx with rfl | rfl
            exacts [by norm_num [HEADER_START], hb1lt])
        (by intro x hx; simp only [List.mem_cons, List.not_mem_nil, or_false] at hx
            rcases hx with rfl; exact hseq)
        hv hb2lt (by decide) (by simpa using hne)
    rw [procIn_header_fail _ _ _ _ _ _ _ _ hcc]
    exact procIn_scan registry hA5body 0 0
  · -- i = 3 : sequence byte corrupted, header CRC fails
    show procIn registry .waitingForHeader 0 0
        (HEADER_START :: b1 :: b2 :: v :: c8v :: t0 :: t1 ::
          (data ++ [footer % 256, footer / 256])) = _
    rw [procIn, if_pos rfl]
    have hcc : crc8 [HEADER_START, b1, b2, v] ≠ c8v := by
      rw [hc8def]
      exact crc8_single_byte_error [HEADER_START, b1, b2] [] 0xFF
        (by intro x hx; simp only [List.mem_cons, List.not_mem_nil, or_false] at hx
            rcases hx with rfl | rfl | rfl
            exacts [by norm_num [HEADER_START], hb1lt, hb2lt])
        (by intro x hx; simp at hx)
        hv hseq (by decide) (by simpa using hne)
    rw [procIn_header_fail _ _ _ _ _ _ _ _ hcc]
    exact procIn_scan registry hA5body 0 0
  · -- i = 4 : header CRC byte corrupted, mismatch
    show procIn registry .waitingForHeader 0 0
        (HEADER_START :: b1 :: b2 :: seq :: v :: t0 :: t1 ::
          (data ++ [footer % 256, footer / 256])) = _
    rw [procIn, if_pos rfl]
    have hcc : crc8 [HEADER_START, b1, b2, seq] ≠ v := by
      rw [← hc8def]
      have hv2 : v ≠ c8v := by simpa using hne
      exact fun h => hv2 h.symm
    rw [procIn_header_fail _ _ _ _ _ _ _ _ hcc]
    exact procIn_scan registry hA5body 0 0
  · -- i = k + 5 : corruption in the body section
    show procIn registry .waitingForHeader 0 0
        (HEADER_START :: b1 :: b2 :: seq :: c8v ::
          ((t0 :: t1 :: (data ++ [footer % 256, footer / 256])).set k v)) = _
    rw [procIn, if_pos rfl, procIn_header_pass _ _ _ _ _ _ _ _ hc8def.symm, hml]
    have hrc16 : crc16 [HEADER_START, b1, b2, seq, c8v] < 65536 := crc16_lt _ _
    rcases k with _ | _ | m
    · -- message type low byte corrupted
      show procIn registry .readingBody data.length _
          (v :: t1 :: (data ++ [footer % 256, footer / 256])) = _
      have hcc : crc16 (v :: t1 :: data) (crc16 [HEADER_START, b1, b2, seq, c8v])
          ≠ footer % 256 + 256 * (footer / 256) := by
        rw [← hbodycrc]
        exact crc16_single_byte_error [] (t1 :: data)
          (crc16 [HEADER_START, b1, b2, seq, c8v])
          (by intro x hx
              rcases List.mem_cons.mp hx with rfl | hx'
              exacts [ht1lt, hdata x hx'])
          hv ht0lt hrc16 (by simpa using hne)
      rw [procIn_body_fail _ _ _ _ _ _ _ _ _ rfl hcc]
      exact procIn_nil _ _ _
    · -- message type high byte corrupted
      show procIn registry .readingBody data.length _
          (t0 :: v :: (data ++ [footer % 256, footer / 256])) = _
      have hcc : crc16 (t0 :: v :: data) (crc16 [HEADER_START, b1, b2, seq, c8v])
          ≠ footer % 256 + 256 * (footer / 256) := by
        rw [← hbodycrc]
        exact crc16_single_byte_error [t0] data
          (crc16 [HEADER_START, b1, b2, seq, c8v])
          (fun x hx => hdata x hx)
          hv ht1lt hrc16 (by simpa using hne)
      rw [procIn_body_fail _ _ _ _ _ _ _ _ _ rfl hcc]
      exact procIn_nil _ _ _
    · -- corruption at offset m into data-plus-footer
      show procIn registry .readingBody data.length _
          (t0 :: t1 :: ((data ++ [footer % 256, footer / 256]).set m v)) = _
      have h7 : ∀ (l : List Nat) (x1 x2 x3 x4 x5 x6 x7 v0 : Nat),
          (x1 :: x2 :: x3 :: x4 :: x5 :: x6 :: x7 :: l).getD (m + 7) v0 = l.getD m v0 :=
        fun l x1 x2 x3 x4 x5 x6 x7 v0 => rfl
      rw [h7] at hne
      rcases Nat.lt_trichotomy m data.length with hm | hm | hm
      · -- a data byte is corrupted: body CRC-16 catches it
        rw [List.set_append_left _ _ hm]
        have hmdata : (data ++ [footer % 256, footer / 256]).getD m 0 = data.getD m 0 := by
          rw [List.getD_eq_getElem?_getD, List.getElem?_append_left hm,
            ← List.getD_eq_getElem?_getD]
        rw [hmdata] at hne
        have hgd : data.getD m 0 = data.get ⟨m, hm⟩ := by
          rw [List.getD_eq_getElem?_getD, List.getElem?_eq_getElem hm, Option.getD_some]
          simp
        have hmem : data.getD m 0 ∈ data := by
          rw [hgd]; exact List.get_mem data m hm
        have hsplitd : data = data.take m ++ data.getD m 0 :: data.drop (m + 1) := by
          conv_lhs => rw [← List.take_append_drop m data]
          rw [List.drop_eq_getElem_cons hm, hgd]
          simp
        have hsetd : data.set m v = data.take m ++ v :: data.drop (m + 1) :=
          List.set_eq_take_cons_drop v hm
        have hcc : crc16 (t0 :: t1 :: data.set m v)
            (crc16 [HEADER_START, b1, b2, seq, c8v])
            ≠ footer % 256 + 256 * (footer / 256) := by
          rw [← hbodycrc, hsetd]
          conv_rhs => rw [hsplitd]
          exact crc16_single_byte_error (t0 :: t1 :: data.take m) (data.drop (m + 1))
            (crc16 [HEADER_START, b1, b2, seq, c8v])
            (fun x hx => hdata x (List.drop_subset _ _ hx))
            hv (hdata _ hmem) hrc16 hne
        rw [procIn_body_fail _ _ _ _ _ _ _ _ _ (List.length_set data m v).symm hcc]
        exact procIn_nil _ _ _
      · -- the low CRC-16 footer byte is corrupted
        subst hm
        rw [List.set_append_right _ _ (Nat.le_refl _)]
        simp only [Nat.sub_self, List.set_cons_zero]
        have hpos : (data ++ [footer % 256, footer / 256]).getD data.length 0
            = footer % 256 := by
          rw [List.getD_eq_getElem?_getD, List.getElem?_append_right (Nat.le_refl _),
            Nat.sub_self]
          rfl
        rw [hpos] at hne
        have hcc : crc16 (t0 :: t1 :: data) (crc16 [HEADER_START, b1, b2, seq, c8v])
            ≠ v + 256 * (footer / 256) := by
          rw [hbodycrc]
          omega
        rw [procIn_body_fail _ _ _ _ _ _ _ _ _ rfl hcc]
        exact procIn_nil _ _ _
      · -- the high CRC-16 footer byte is corrupted
        have hm2 : m = data.length + 1 := by omega
        subst hm2
        rw [List.set_append_right _ _ (by omega)]
        have hoff : data.length + 1 - data.length = 1 := by omega
        rw [hoff]
        simp only [List.set_cons_succ, List.set_cons_zero]
        have hpos : (data ++ [footer % 256, footer / 256]).getD (data.length + 1) 0
            = footer / 256 := by
          rw [List.getD_eq_getElem?_getD, List.getElem?_append_right (by omega)]
          have : data.length + 1 - data.length = 1 := by omega
          rw [this]
          rfl
        rw [hpos] at hne
        have hcc : crc16 (t0 :: t1 :: data) (crc16 [HEADER_START, b1, b2, seq, c8v])
            ≠ footer % 256 + 256 * v := by
          rw [hbodycrc]
          omega
        rw [procIn_body_fail _ _ _ _ _ _ _ _ _ rfl hcc]
        exact procIn_nil _ _ _

/-- Claim C7: `Transceiver.send` followed by `process_in` over exactly the
produced bytes: the registered handler receives the original serialized data
once and the receiver ends in `WAITING_FOR_HEADER`. -/
theorem send_receive_roundtrip {M : Type} (registry : Nat → Option (List Nat → Option M))
    (typeId seq : Nat) (data : List Nat) (parse : List Nat → Option M) (msg : M)
    (hdata : ∀ b ∈ data, b < 256) (hlen : data.length < 65536)
    (hseq : seq < 256) (htype : typeId < 65536)
    (hreg : registry typeId = some parse) (hparse : parse data = some msg) :
    processIn registry (sendFrame typeId seq data) = ⟨[msg], .waitingForHeader, false⟩ := by
  have h := procIn_frame registry typeId seq data parse msg [] 0 0 hlen htype hreg hparse
    (by simp)
  rw [List.append_nil] at h
  exact h

theorem send_receive_roundtrip_witness :
    (∀ b ∈ [2, 3], b < 256) ∧
    processIn exRegistry7 (sendFrame 5 0 [2, 3]) = ⟨[23], .waitingForHeader, false⟩ :=
  ⟨by decide,
   send_receive_roundtrip exRegistry7 5 0 [2, 3] exParse23 23 (by decide) (by decide)
     (by decide) (by decide) rfl rfl⟩

theorem innerFrame_eq : sendFrame 1 0 [] = [165, 0, 0, 0, 195, 1, 0, 148, 154] := by
  simp only [sendFrame, mkHeader, crc8, crc16, crc8Update_eq, crc16Update_eq]
  decide

theorem outerFrame_eq : sendFrame 2 0 (sendFrame 1 0 [])
    = [165, 9, 0, 0, 77, 2, 0, 165, 0, 0, 0, 195, 1, 0, 148, 154, 253, 184] := by
  rw [innerFrame_eq]
  simp only [sendFrame, mkHeader, crc8, crc16, crc8Update_eq, crc16Update_eq]
  decide

/-- Claim C4 counterexample: corrupting the first byte of a valid frame whose
data section embeds a complete valid frame makes the receiver resynchronize
on the embedded frame and invoke its handler: a one-byte corruption can
invoke a handler. -/
theorem corrupted_frame_handler_invoked :
    processIn exRegistryC4 ((sendFrame 2 0 (sendFrame 1 0 [])).set 0 0)
      = ⟨[0], .waitingForHeader, false⟩ := by
  have hdecomp : (sendFrame 2 0 (sendFrame 1 0 [])).set 0 0
      = [0, 9, 0, 0, 77, 2, 0] ++ (sendFrame 1 0 [] ++ [253, 184]) := by
    rw [outerFrame_eq, innerFrame_eq]
    decide
  unfold processIn
  rw [hdecomp, procIn_scan_prefix exRegistryC4 (by decide) 0 0]
  exact procIn_frame exRegistryC4 1 0 [] exParseLen 0 [253, 184] 0 0 (by decide)
    (by decide) rfl rfl (by decide)

theorem exF7_eq : sendFrame 1 0 [7] = [165, 1, 0, 0, 104, 1, 0, 7, 117, 91] := by
  simp only [sendFrame, mkHeader, crc8, crc16, crc8Update_eq, crc16Update_eq]
  decide

theorem corrupted_frame_rejected_witness :
    (∀ b ∈ (sendFrame 1 0 [7]).tail, b ≠ HEADER_START) ∧
    processIn exRegistryC4 ((sendFrame 1 0 [7]).set 7 8) = ⟨[], .waitingForHeader, false⟩ :=
  ⟨by rw [exF7_eq]; decide,
   corrupted_frame_rejected exRegistryC4 1 0 [7] 7 8 (by decide) (by decide) (by decide)
     (by decide) (by rw [exF7_eq]; decide) (by rw [exF7_eq]; decide) (by decide)
     (by rw [exF7_eq]; decide)⟩

/-! ## Theorems: the timestamped history buffer -/

/-- Claim C1 (code bug): after `clear()` the data list is emptied but `_keys`
is not, so the buffer is not empty through its whole public interface:
`apply` still sees the stale keys, and a subsequent `add` of an older
timestamp succeeds, appending to the stale key list and breaking the
strictly-increasing-keys invariant. -/
theorem clear_add_bug :
    let b0 : TimestampedHistoryBuffer Int := ⟨[], [], 5, 1000⟩
    let b1 := (b0.add 1 10).2
    let b2 := b1.clear
    b2.num_entries = 0
      ∧ b2.oldest_timestamp = none
      ∧ b2.latest_timestamp = none
      ∧ b2.apply (fun k => k) = [1]
      ∧ (b2.add 0 20).1 = none
      ∧ (b2.add 0 20).2.keys = [1, 0]
      ∧ ¬ (b2.add 0 20).2.keys.Sorted (· < ·) := by
  constructor
  · decide
  constructor
  · decide
  constructor
  · decide
  constructor
  · decide
  constructor
  · decide
  constructor
  · decide
  · decide

namespace TimestampedHistoryBuffer

variable {Value : Type}

theorem getLast?_of_drop {α : Type} (l : List α) (k : Nat) (hk : k < l.length) :
    (l.drop k).getLast? = l.getLast? := by
  induction l generalizing k with
  | nil => simp at hk
  | cons a t ih =>
    rcases k with _ | k
    · simp
    · simp only [List.length_cons] at hk
      rcases t with _ | ⟨b, t2⟩
      · simp at hk
      · rw [List.drop_succ_cons, ih k (by omega)]
        simp [List.getLast?_cons_cons]

theorem remove_spec (maxE : Nat) (maxA latest : Int) (hmaxE : 0 < maxE)
    (hmaxA : 0 ≤ maxA) :
    ∀ (data : List Value) (keys : List Int),
      keys.length = data.length → keys.getLast? = some latest →
      ∃ k < data.length,
        _remove_expired_items maxE maxA latest keys data = (keys.drop k, data.drop k)
          ∧ data.length - k ≤ maxE
          ∧ |latest - (keys.drop k).getD 0 0| ≤ maxA := by
  intro data
  induction data with
  | nil =>
    intro keys hlen hlast
    simp at hlen
    rw [hlen] at hlast
    simp at hlast
  | cons d ds ih =>
    intro keys hlen hlast
    rw [_remove_expired_items]
    by_cases hg : (d :: ds).length > maxE ∨ |latest - keys.getD 0 0| > maxA
    · rw [if_pos hg]
      -- the loop popped, so more than the new entry was present
      rcases ds with _ | ⟨d2, ds2⟩
      · -- singleton: keys = [latest]; the guard cannot hold
        exfalso
        rcases keys with _ | ⟨k0, ktail⟩
        · simp at hlen
        · rcases ktail with _ | _
          · simp at hlast
            subst hlast
            simp at hg
            omega
          · simp at hlen
      · have hlen2 : keys.tail.length = (d2 :: ds2).length := by
          rcases keys with _ | _ <;> simp_all
        have hlast2 : keys.tail.getLast? = some latest := by
          rcases keys with _ | ⟨k0, ktail⟩
          · simp at hlen
          · rcases ktail with _ | _
            · simp at hlen
            · simpa [List.getLast?_cons_cons] using hlast
        obtain ⟨k, hk, heq, hsize, hage⟩ := ih keys.tail hlen2 hlast2
        refine ⟨k + 1, by simpa using Nat.succ_lt_succ hk, ?_, by simp only [List.length_cons] at hsize ⊢; omega, ?_⟩
        · rw [heq]
          rcases keys with _ | _
          · simp at hlen
          · simp
        · rcases keys with _ | _
          · simp at hlen
          · simpa using hage
    · rw [if_neg hg]
      push_neg at hg
      exact ⟨0, by simp, by simp, by simpa using hg.1, by simpa using hg.2⟩

theorem sorted_le_getLastD : ∀ (l : List Int) (d : Int), l.Sorted (· < ·) →
    ∀ a ∈ l, a ≤ l.getLastD d
  | [], _, _, a, ha => by simp at ha
  | h :: tl, d, hs, a, ha => by
    rw [List.getLastD_cons]
    rcases List.mem_cons.mp ha with rfl | ha2
    · rcases tl with _ | ⟨b, tl2⟩
      · simp
      · have h1 : a < b := (List.sorted_cons.mp hs).1 b (by simp)
        have h2 := sorted_le_getLastD (b :: tl2) a (List.sorted_cons.mp hs).2 b (by simp)
        omega
    · exact sorted_le_getLastD tl h (List.sorted_cons.mp hs).2 a ha2

/-- Claim C6: `add(t, v)` raises `BufferEntryTooOldError` iff the buffer is
non-empty with `t` not newer than the latest key; a raise leaves the state
untouched, and a successful add appends `(t, v)` and enforces the size and
age bounds. -/
theorem add_spec (buf : TimestampedHistoryBuffer Value) (t : Int) (v : Value)
    (hwf : BufferWF buf) :
    ((buf.add t v).1.isSome ↔ ∃ lt, buf.latest_timestamp = some lt ∧ t ≤ lt)
    ∧ ((buf.add t v).1.isSome → (buf.add t v).2 = buf)
    ∧ ((buf.add t v).1 = none →
        (buf.add t v).2.keys.getLast? = some t
          ∧ (buf.add t v).2.data.getLast? = some v
          ∧ (buf.add t v).2.num_entries ≤ buf.max_entries
          ∧ ∀ k ∈ (buf.add t v).2.keys, |t - k| ≤ buf.maximum_entry_age) := by
  obtain ⟨hlen, hsorted, hmaxE, hmaxA⟩ := hwf
  by_cases htoo : entry_too_old buf t
  · -- raise path
    rw [add, if_pos htoo]
    refine ⟨?_, fun _ => rfl, fun h => by simp at h⟩
    simp only [Option.isSome_some, true_iff]
    unfold entry_too_old at htoo
    rcases hl : buf.latest_timestamp with _ | lt
    · rw [hl] at htoo; simp at htoo
    · rw [hl] at htoo
      simp at htoo
      exact ⟨lt, rfl, htoo⟩
  · rw [add, if_neg htoo]
    have hnotold : ∀ lt, buf.latest_timestamp = some lt → lt < t := by
      intro lt hl
      unfold entry_too_old at htoo
      rw [hl] at htoo
      simpa using htoo
    have hlast : (buf.keys ++ [t]).getLast? = some t := by simp
    have hlen2 : (buf.keys ++ [t]).length = (buf.data ++ [v]).length := by
      simp [hlen]
    obtain ⟨k, hk, heq, hsize, hage⟩ := remove_spec buf.max_entries
      buf.maximum_entry_age t hmaxE (le_of_lt hmaxA) (buf.data ++ [v])
      (buf.keys ++ [t]) hlen2 hlast
    simp only [heq]
    have hklen : k < (buf.keys ++ [t]).length := by
      simp only [List.length_append, List.length_cons, List.length_nil, hlen]
      simpa using hk
    constructor
    · constructor
      · intro habs; simp at habs
      · rintro ⟨lt, hl, hle⟩
        exact absurd (hnotold lt hl) (by omega)
    refine ⟨fun habs => by simp at habs, fun _ => ⟨?_, ?_, ?_, ?_⟩⟩
    · rw [getLast?_of_drop _ _ hklen, hlast]
    · rw [getLast?_of_drop _ _ (by simpa using hk)]
      simp
    · simpa [num_entries] using hsize
    · intro key hkey
      have hklist : ∀ a ∈ buf.keys ++ [t], a ≤ t := by
        intro a ha
        rcases List.mem_append.mp ha with ha | ha
        · rcases hne : buf.keys with _ | ⟨k0, krest⟩
          · rw [hne] at ha; simp at ha
          · have hdata_ne : ¬ buf.data.length = 0 := by
              rw [← hlen, hne]; simp
            have hlatest : buf.latest_timestamp = some (buf.keys.getLastD 0) := by
              unfold latest_timestamp
              rw [if_neg hdata_ne]
            have hlt := hnotold _ hlatest
            have hle : a ≤ buf.keys.getLastD 0 := sorted_le_getLastD _ _ hsorted a ha
            omega
        · simp at ha; omega
      have hsorted2 : (buf.keys ++ [t]).Sorted (· < ·) := by
        rw [List.Sorted, List.pairwise_append]
        refine ⟨hsorted, by simp, ?_⟩
        intro a ha b hb
        simp only [List.mem_cons, List.not_mem_nil, or_false] at hb
        subst hb
        rcases hne : buf.keys with _ | ⟨k0, krest⟩
        · rw [hne] at ha; simp at ha
        · have hdata_ne : ¬ buf.data.length = 0 := by
            rw [← hlen, hne]; simp
          have hlatest : buf.latest_timestamp = some (buf.keys.getLastD 0) := by
            unfold latest_timestamp
            rw [if_neg hdata_ne]
          have hlt := hnotold _ hlatest
          have hle : a ≤ buf.keys.getLastD 0 := sorted_le_getLastD _ _ hsorted a ha
          omega
      have hmem2 : key ∈ buf.keys ++ [t] := List.mem_of_mem_drop hkey
      have hkeyle : key ≤ t := hklist key hmem2
      have hdropsorted : ((buf.keys ++ [t]).drop k).Sorted (· < ·) :=
        List.Pairwise.sublist (List.drop_sublist _ _) hsorted2
      rcases hdp : (buf.keys ++ [t]).drop k with _ | ⟨h0, hrest⟩
      · have hcontra := congrArg List.length hdp
        simp only [List.length_drop, List.length_nil] at hcontra
        omega
      · have hhead_le : h0 ≤ key := by
          rw [hdp] at hkey
          rcases List.mem_cons.mp hkey with rfl | hkey2
          · exact le_refl _
          · have hlt := (List.sorted_cons.mp (hdp ▸ hdropsorted)).1 key hkey2
            omega
        have hh0mem : h0 ∈ buf.keys ++ [t] :=
          List.mem_of_mem_drop (by rw [hdp]; exact List.mem_cons_self _ _)
        have hh0le : h0 ≤ t := hklist h0 hh0mem
        rw [hdp] at hage
        simp only [List.getD_cons_zero] at hage
        rw [abs_of_nonneg (by omega : (0:Int) ≤ t - h0)] at hage
        rw [abs_of_nonneg (by omega : (0:Int) ≤ t - key)]
        omega

theorem bisect_left_cons (k : Int) (ks : List Int) (t : Int) :
    bisect_left (k :: ks) t = if k < t then bisect_left ks t + 1 else 0 := by
  simp only [bisect_left, List.takeWhile_cons]
  by_cases h : k < t <;> simp [h]

theorem bisect_left_le_length (keys : List Int) (t : Int) :
    bisect_left keys t ≤ keys.length :=
  le_trans (List.length_le_of_sublist (List.takeWhile_sublist _)) (le_refl _)

theorem bisect_left_lt (keys : List Int) (t : Int) :
    ∀ j, j < bisect_left keys t → keys.getD j 0 < t := by
  induction keys with
  | nil => intro j hj; simp [bisect_left] at hj
  | cons k ks ih =>
    intro j hj
    rw [bisect_left_cons] at hj
    by_cases h : k < t
    · rw [if_pos h] at hj
      rcases j with _ | j
      · simpa
      · simpa using ih j (by omega)
    · rw [if_neg h] at hj
      omega

theorem bisect_left_ge (keys : List Int) (t : Int)
    (h : bisect_left keys t < keys.length) :
    t ≤ keys.getD (bisect_left keys t) 0 := by
  induction keys with
  | nil => simp at h
  | cons k ks ih =>
    rw [bisect_left_cons] at h ⊢
    by_cases hk : k < t
    · rw [if_pos hk] at h ⊢
      simpa using ih (by simpa using h)
    · rw [if_neg hk]
      simpa using not_lt.mp hk

theorem sorted_getD_mono {keys : List Int} (hs : keys.Sorted (· < ·)) :
    ∀ i j, i ≤ j → j < keys.length → keys.getD i 0 ≤ keys.getD j 0 := by
  induction keys with
  | nil => intro i j _ hj; simp at hj
  | cons k ks ih =>
    intro i j hij hj
    rcases j with _ | j
    · interval_cases i
      simp
    · rcases i with _ | i
      · simp only [List.getD_cons_zero, List.getD_cons_succ]
        rcases List.sorted_cons.mp hs with ⟨hk, hks⟩
        have hmem : ks.getD j 0 ∈ ks := by
          have hjlen : j < ks.length := by simpa using hj
          rw [List.getD_eq_getElem?_getD, List.getElem?_eq_getElem hjlen, Option.getD_some]
          exact List.getElem_mem hjlen
        exact le_of_lt (hk _ hmem)
      · simp only [List.getD_cons_succ]
        exact ih (List.sorted_cons.mp hs).2 i j (by omega) (by simpa using hj)

theorem getLastD_eq_getD (keys : List Int) :
    keys.getLastD 0 = keys.getD (keys.length - 1) 0 := by
  rw [List.getLastD_eq_getLast?, List.getLast?_eq_getElem?, List.getD_eq_getElem?_getD]

/-- Claim C5: on a buffer with at least one entry, `search(t)` returns a value
iff `oldest ≤ t ≤ latest`, and any returned value belongs to a stored key of
minimal distance to `t`, ties resolved toward the later key. -/
theorem search_spec (buf : TimestampedHistoryBuffer Value) (t : Int)
    (hlen : buf.keys.length = buf.data.length)
    (hsorted : buf.keys.Sorted (· < ·))
    (hne : buf.data ≠ []) :
    ((buf.search t).isSome ↔ ∃ o l, buf.oldest_timestamp = some o
        ∧ buf.latest_timestamp = some l ∧ o ≤ t ∧ t ≤ l)
    ∧ ∀ v, buf.search t = some v →
        ∃ i, i < buf.keys.length ∧ buf.data.get? i = some v
          ∧ (∀ j, j < buf.keys.length →
              |buf.keys.getD i 0 - t| ≤ |buf.keys.getD j 0 - t|)
          ∧ (∀ j, j < buf.keys.length →
              |buf.keys.getD j 0 - t| = |buf.keys.getD i 0 - t| →
              buf.keys.getD j 0 ≤ buf.keys.getD i 0) := by
  have hdlen : ¬ buf.data.length = 0 := by simpa [List.length_eq_zero] using hne
  have hklenpos : 0 < buf.keys.length := by rw [hlen]; omega
  have ho : buf.oldest_timestamp = some (buf.keys.getD 0 0) := by
    unfold oldest_timestamp; rw [if_neg hdlen]
  have hl : buf.latest_timestamp = some (buf.keys.getLastD 0) := by
    unfold latest_timestamp; rw [if_neg hdlen]
  have hmain : buf.search t
      = if t < buf.keys.getD 0 0 ∨ t > buf.keys.getLastD 0 then none
        else
          let pos := bisect_left buf.keys t
          if pos = 0 then buf.data.get? pos
          else if pos = buf.keys.length then buf.data.getLast?
          else
            let earlier_t := buf.keys.getD (pos - 1) 0
            let later_t := buf.keys.getD pos 0
            let closest_pos :=
              if |earlier_t - t| < |later_t - t| then pos - 1 else pos
            buf.data.get? closest_pos := by
    rw [search, if_neg hdlen, ho, hl]
  by_cases hwin : t < buf.keys.getD 0 0 ∨ t > buf.keys.getLastD 0
  · rw [hmain, if_pos hwin]
    refine ⟨?_, fun v hv => by simp at hv⟩
    simp only [Option.isSome_none, Bool.false_eq_true, false_iff]
    rintro ⟨o, l, ho2, hl2, hot, htl⟩
    rw [ho] at ho2
    rw [hl] at hl2
    simp only [Option.some.injEq] at ho2 hl2
    subst ho2; subst hl2
    rcases hwin with h | h <;> omega
  · rw [hmain, if_neg hwin]
    push_neg at hwin
    obtain ⟨hot, htl⟩ := hwin
    simp only
    have hexists : ∃ o l, buf.oldest_timestamp = some o ∧ buf.latest_timestamp = some l
        ∧ o ≤ t ∧ t ≤ l := ⟨_, _, ho, hl, hot, htl⟩
    by_cases hp0 : bisect_left buf.keys t = 0
    · rw [if_pos hp0, hp0]
      have h0lt : (0 : Nat) < buf.data.length := by omega
      have hget : buf.data.get? 0 = some (buf.data.get ⟨0, h0lt⟩) := List.get?_eq_get h0lt
      constructor
      · rw [hget]; simp only [Option.isSome_some, true_iff]; exact hexists
      · intro v hv
        -- here t = keys[0]
        have hkey0 : t = buf.keys.getD 0 0 := by
          have := bisect_left_ge buf.keys t (by omega)
          rw [hp0] at this
          omega
        refine ⟨0, hklenpos, hv, ?_, ?_⟩
        · intro j hj
          rw [← hkey0]
          simp only [sub_self, abs_zero]
          exact abs_nonneg _
        · intro j hj habs
          rw [← hkey0] at habs ⊢
          simp only [sub_self, abs_zero] at habs
          have := abs_eq_zero.mp habs
          omega
    · by_cases hpl : bisect_left buf.keys t = buf.keys.length
      · exfalso
        have hlast_lt : buf.keys.getD (buf.keys.length - 1) 0 < t :=
          bisect_left_lt buf.keys t _ (by omega)
        rw [← getLastD_eq_getD] at hlast_lt
        omega
      · rw [if_neg hp0, if_neg hpl]
        have hposle := bisect_left_le_length buf.keys t
        have hposlt : bisect_left buf.keys t < buf.keys.length :=
          lt_of_le_of_ne hposle hpl
        have hpospos : 0 < bisect_left buf.keys t := Nat.pos_of_ne_zero hp0
        have he_lt : buf.keys.getD (bisect_left buf.keys t - 1) 0 < t :=
          bisect_left_lt buf.keys t _ (by omega)
        have hl_ge : t ≤ buf.keys.getD (bisect_left buf.keys t) 0 :=
          bisect_left_ge buf.keys t hposlt
        set pos := bisect_left buf.keys t with hposdef
        set e := buf.keys.getD (pos - 1) 0 with hedef
        set l := buf.keys.getD pos 0 with hldef
        have hclosest_lt : (if |e - t| < |l - t| then pos - 1 else pos) < buf.data.length := by
          split <;> omega
        have hget : buf.data.get? (if |e - t| < |l - t| then pos - 1 else pos)
            = some (buf.data.get ⟨_, hclosest_lt⟩) := List.get?_eq_get hclosest_lt
        constructor
        · rw [hget]; simp only [Option.isSome_some, true_iff]; exact hexists
        · intro v hv
          have hub : ∀ j, j < pos → buf.keys.getD j 0 ≤ e ∧ buf.keys.getD j 0 < t := by
            intro j hj
            exact ⟨sorted_getD_mono hsorted j (pos - 1) (by omega) (by omega),
              bisect_left_lt buf.keys t j hj⟩
          have hlb : ∀ j, pos ≤ j → j < buf.keys.length → l ≤ buf.keys.getD j 0 := by
            intro j hj hjlen
            exact sorted_getD_mono hsorted pos j hj hjlen
          by_cases hcmp : |e - t| < |l - t|
          · rw [if_pos hcmp] at hv
            refine ⟨pos - 1, by omega, hv, ?_, ?_⟩
            · intro j hj
              rw [abs_of_nonpos (by omega : e - t ≤ 0)] at hcmp ⊢
              by_cases hjp : j < pos
              · obtain ⟨hje, hjt⟩ := hub j hjp
                rw [abs_of_nonpos (by omega : buf.keys.getD j 0 - t ≤ 0)]
                omega
              · have hjl := hlb j (by omega) hj
                rw [abs_of_nonneg (by omega : (0:Int) ≤ l - t)] at hcmp
                rw [abs_of_nonneg (by omega : (0:Int) ≤ buf.keys.getD j 0 - t)]
                omega
            · intro j hj habs
              rw [abs_of_nonpos (by omega : e - t ≤ 0)] at hcmp habs
              by_cases hjp : j < pos
              · obtain ⟨hje, hjt⟩ := hub j hjp
                rw [abs_of_nonpos (by omega : buf.keys.getD j 0 - t ≤ 0)] at habs
                omega
              · have hjl := hlb j (by omega) hj
                rw [abs_of_nonneg (by omega : (0:Int) ≤ l - t)] at hcmp
                rw [abs_of_nonneg (by omega : (0:Int) ≤ buf.keys.getD j 0 - t)] at habs
                omega
          · rw [if_neg hcmp] at hv
            push_neg at hcmp
            refine ⟨pos, by omega, hv, ?_, ?_⟩
            · intro j hj
              rw [abs_of_nonneg (by omega : (0:Int) ≤ l - t)] at hcmp ⊢
              by_cases hjp : j < pos
              · obtain ⟨hje, hjt⟩ := hub j hjp
                rw [abs_of_nonpos (by omega : e - t ≤ 0)] at hcmp
                rw [abs_of_nonpos (by omega : buf.keys.getD j 0 - t ≤ 0)]
                omega
              · have hjl := hlb j (by omega) hj
                rw [abs_of_nonneg (by omega : (0:Int) ≤ buf.keys.getD j 0 - t)]
                omega
            · intro j hj habs
              rw [abs_of_nonneg (by omega : (0:Int) ≤ l - t)] at hcmp habs
              by_cases hjp : j < pos
              · obtain ⟨hje, hjt⟩ := hub j hjp
                rw [abs_of_nonpos (by omega : buf.keys.getD j 0 - t ≤ 0)] at habs
                omega
              · have hjl := hlb j (by omega) hj
                rw [abs_of_nonneg (by omega : (0:Int) ≤ buf.keys.getD j 0 - t)] at habs
                omega


theorem add_spec_witness :
    ((⟨[3], [30], 5, 1000⟩ : TimestampedHistoryBuffer Int).add 5 50).2.keys.getLast?
      = some 5 :=
  ((add_spec ⟨[3], [30], 5, 1000⟩ 5 50
      ⟨by decide, by decide, by decide, by decide⟩).2.2 (by decide)).1

theorem search_spec_witness :
    ((⟨[1, 5], [10, 50], 5, 1000⟩ : TimestampedHistoryBuffer Int).search 4).isSome :=
  (search_spec ⟨[1, 5], [10, 50], 5, 1000⟩ 4 (by decide) (by decide) (by decide)).1.mpr
    ⟨1, 5, by decide, by decide, by decide, by decide⟩

end TimestampedHistoryBuffer

/-! ## Theorems: target selection -/

theorem valid_entry_some {T : Type} {thr : Option ℚ} {rules : List ((T → Option ℚ) × ℚ)}
    {a : T} {x : T × ℚ} (h : valid_entry thr rules a = some x) :
    x.1 = a ∧ _evaluate_target rules a = some x.2 ∧ _is_under_maximum_score thr x.2 := by
  unfold valid_entry at h
  rcases he : _evaluate_target rules a with _ | sc <;> rw [he] at h
  · simp at h
  · by_cases hu : _is_under_maximum_score thr sc
    · rw [show (match some sc with
          | none => (none : Option (T × ℚ))
          | some score =>
            if _is_under_maximum_score thr score then some (a, score) else none)
          = if _is_under_maximum_score thr sc then some (a, sc) else none from rfl,
        if_pos hu] at h
      have hx : x = (a, sc) := (Option.some.inj h).symm
      subst hx
      exact ⟨rfl, rfl, hu⟩
    · rw [show (match some sc with
          | none => (none : Option (T × ℚ))
          | some score =>
            if _is_under_maximum_score thr score then some (a, score) else none)
          = if _is_under_maximum_score thr sc then some (a, sc) else none from rfl,
        if_neg hu] at h
      simp at h

theorem valid_entry_of {T : Type} (thr : Option ℚ) (rules : List ((T → Option ℚ) × ℚ))
    (a : T) (s : ℚ) (he : _evaluate_target rules a = some s)
    (hu : _is_under_maximum_score thr s) : valid_entry thr rules a = some (a, s) := by
  unfold valid_entry
  rw [he]
  rw [show (match some s with
      | none => (none : Option (T × ℚ))
      | some score =>
        if _is_under_maximum_score thr score then some (a, score) else none)
      = if _is_under_maximum_score thr s then some (a, s) else none from rfl, if_pos hu]

theorem pyMin_spec {T : Type} (f : T → ℚ) : ∀ (xs : List T) (acc : T),
    (pyMin f acc xs = acc ∧ ∀ x ∈ xs, f acc ≤ f x)
    ∨ ∃ p q, xs = p ++ pyMin f acc xs :: q
        ∧ f (pyMin f acc xs) < f acc
        ∧ (∀ x ∈ xs, f (pyMin f acc xs) ≤ f x)
        ∧ (∀ x ∈ p, f (pyMin f acc xs) < f x) := by
  intro xs
  induction xs with
  | nil => intro acc; left; exact ⟨rfl, by simp⟩
  | cons x xs ih =>
    intro acc
    rw [pyMin]
    by_cases hx : f x < f acc
    · rw [if_pos hx]
      rcases ih x with ⟨heq, hmin⟩ | ⟨p, q, hsplit, hlt, hmin, hpre⟩
      · right
        refine ⟨[], xs, ?_, ?_, ?_, by simp⟩
        · simp [heq]
        · rw [heq]; exact hx
        · intro y hy
          rw [heq]
          rcases List.mem_cons.mp hy with rfl | hy2
          · exact le_refl _
          · exact hmin y hy2
      · right
        refine ⟨x :: p, q, ?_, lt_trans hlt hx, ?_, ?_⟩
        · rw [List.cons_append, ← hsplit]
        · intro y hy
          rcases List.mem_cons.mp hy with rfl | hy2
          · exact le_of_lt hlt
          · exact hmin y hy2
        · intro y hy
          rcases List.mem_cons.mp hy with rfl | hy2
          · exact hlt
          · exact hpre y hy2
    · rw [if_neg hx]
      rcases ih acc with ⟨heq, hmin⟩ | ⟨p, q, hsplit, hlt, hmin, hpre⟩
      · left
        refine ⟨heq, ?_⟩
        intro y hy
        rcases List.mem_cons.mp hy with rfl | hy2
        · exact not_lt.mp hx
        · exact hmin y hy2
      · right
        refine ⟨x :: p, q, ?_, hlt, ?_, ?_⟩
        · rw [List.cons_append, ← hsplit]
        · intro y hy
          rcases List.mem_cons.mp hy with rfl | hy2
          · exact le_trans (le_of_lt hlt) (not_lt.mp hx)
          · exact hmin y hy2
        · intro y hy
          rcases List.mem_cons.mp hy with rfl | hy2
          · exact lt_of_lt_of_le hlt (not_lt.mp hx)
          · exact hpre y hy2

/-- Claim C10: `select_target` is a pure function of its inputs, and a
returned target is valid, attains the minimal weighted score among all valid
targets, and every valid target appearing earlier in the input scores
strictly worse: ties go to the earliest valid target of minimal score. -/
theorem select_target_spec {T : Type} (thr : Option ℚ)
    (rules : List ((T → Option ℚ) × ℚ)) (targets : List T) (t : T)
    (h : select_target thr rules targets = some t) :
    ∃ pre suf s, targets = pre ++ t :: suf
      ∧ _evaluate_target rules t = some s
      ∧ _is_under_maximum_score thr s
      ∧ (∀ t' ∈ targets, ∀ s', _evaluate_target rules t' = some s' →
          _is_under_maximum_score thr s' → s ≤ s')
      ∧ (∀ t' ∈ pre, ∀ s', _evaluate_target rules t' = some s' →
          _is_under_maximum_score thr s' → s < s') := by
  unfold select_target at h
  rcases hfm : targets.filterMap (valid_entry thr rules) with _ | ⟨v, vs⟩
  · rw [hfm] at h; simp at h
  · rw [hfm] at h
    simp only [Option.some.injEq] at h
    have hvalid_of : ∀ a ∈ targets, ∀ s', _evaluate_target rules a = some s' →
        _is_under_maximum_score thr s' →
        (a, s') ∈ targets.filterMap (valid_entry thr rules) := by
      intro a ha s' he hu
      exact List.mem_filterMap.mpr ⟨a, ha, valid_entry_of thr rules a s' he hu⟩
    have hmem_val : ∀ x ∈ targets.filterMap (valid_entry thr rules),
        _evaluate_target rules x.1 = some x.2 ∧ _is_under_maximum_score thr x.2 := by
      intro x hx
      obtain ⟨a, _, hva⟩ := List.mem_filterMap.mp hx
      obtain ⟨h1, h2, h3⟩ := valid_entry_some hva
      rw [h1]
      exact ⟨h2, h3⟩
    rcases pyMin_spec (fun p : T × ℚ => p.2) vs v
      with ⟨heq, hminall⟩ | ⟨p, q, hsplit, hlt, hminall, hpre⟩
    · -- the head of the valid list is the minimum
      rw [heq] at h
      obtain ⟨l₁, a, l₂, ht, hnone, hsome, _⟩ := List.filterMap_eq_cons_iff.mp hfm
      obtain ⟨hav, hascore, haunder⟩ := valid_entry_some hsome
      obtain ⟨hscore, hunder⟩ := hmem_val v (by rw [hfm]; exact List.mem_cons_self _ _)
      refine ⟨l₁, l₂, v.2, ?_, by rw [h] at hscore; exact hscore, hunder, ?_, ?_⟩
      · rw [ht, ← hav, ← h]
      · intro t' ht' s' he hu
        have hmem := hvalid_of t' ht' s' he hu
        rw [hfm] at hmem
        rcases List.mem_cons.mp hmem with hmem | hmem
        · rw [← hmem]
        · exact hminall (t', s') hmem
      · intro t' ht' s' he hu
        exfalso
        have hentry := valid_entry_of thr rules t' s' he hu
        have hnone2 := hnone t' ht'
        rw [hentry] at hnone2
        simp at hnone2
    · -- the minimum sits inside the tail of the valid list
      have hfm2 : targets.filterMap (valid_entry thr rules)
          = (v :: p) ++ pyMin (fun p : T × ℚ => p.2) v vs :: q := by
        conv_lhs => rw [hfm, hsplit]
        simp
      obtain ⟨l₁, l₂, htgt, hfm_l₁, hfm_l₂⟩ := List.filterMap_eq_append_iff.mp hfm2
      obtain ⟨l₃, a, l₄, hl₂, hnone, hsome, _⟩ := List.filterMap_eq_cons_iff.mp hfm_l₂
      obtain ⟨hav, hascore, haunder⟩ := valid_entry_some hsome
      refine ⟨l₁ ++ l₃, l₄, (pyMin (fun p : T × ℚ => p.2) v vs).2,
        ?_, by rw [← h, hav]; exact hascore,
        haunder, ?_, ?_⟩
      · rw [htgt, hl₂, ← h, hav]
        simp
      · intro t' ht' s' he hu
        have hmem := hvalid_of t' ht' s' he hu
        rw [hfm2] at hmem
        rcases List.mem_append.mp hmem with hmem | hmem
        · rcases List.mem_cons.mp hmem with hmem | hmem
          · have hv2 : v.2 = s' := by rw [← hmem]
            rw [hv2] at hlt
            exact le_of_lt hlt
          · have := hminall (t', s') (by rw [hsplit]; exact List.mem_append.mpr (Or.inl hmem))
            exact this
        · rcases List.mem_cons.mp hmem with hmem | hmem
          · rw [← hmem]
          · have hin : (t', s') ∈ vs := by
              rw [hsplit]
              exact List.mem_append.mpr (Or.inr (List.mem_cons_of_mem _ hmem))
            exact hminall (t', s') hin
      · intro t' ht' s' he hu
        have hentry := valid_entry_of thr rules t' s' he hu
        rcases List.mem_append.mp ht' with hmem | hmem
        · have hin : (t', s') ∈ v :: p := by
            rw [← hfm_l₁]
            exact List.mem_filterMap.mpr ⟨t', hmem, hentry⟩
          rcases List.mem_cons.mp hin with hh | hh
          · have hv2 : v.2 = s' := by rw [← hh]
            rw [hv2] at hlt
            exact hlt
          · exact hpre (t', s') hh
        · have hnone2 := hnone t' hmem
          rw [hentry] at hnone2
          simp at hnone2

theorem select_target_ex :
    select_target none [(fun _ => some (1:ℚ), (1:ℚ))] [(0:ℕ), 1] = some 0 := by
  have he : ∀ t : ℕ, valid_entry none [(fun _ => some (1:ℚ), (1:ℚ))] t = some (t, 1) := by
    intro t
    have h1 : _evaluate_target [(fun _ => some (1:ℚ), (1:ℚ))] t = some 1 := by
      show some (0 + 1 * 1 : ℚ) = some 1
      norm_num
    exact valid_entry_of none _ t 1 h1 trivial
  have hfm : List.filterMap (valid_entry none [(fun _ => some (1:ℚ), (1:ℚ))]) [(0:ℕ), 1]
      = [(0, 1), (1, 1)] := by
    simp [List.filterMap_cons, he]
  unfold select_target
  rw [hfm]
  have hmin : pyMin (fun p : ℕ × ℚ => p.2) (0, 1) [(1, 1)] = (0, 1) := by
    rw [pyMin, pyMin]
    norm_num
  show some (pyMin (fun p : ℕ × ℚ => p.2) (0, 1) [(1, 1)]).1 = some 0
  rw [hmin]

theorem select_target_spec_witness :
    ∃ pre suf s, ([0, 1] : List ℕ) = pre ++ (0 : ℕ) :: suf
      ∧ _evaluate_target [(fun _ => some 1, 1)] (0 : ℕ) = some s
      ∧ _is_under_maximum_score none s
      ∧ (∀ t' ∈ ([0, 1] : List ℕ), ∀ s',
          _evaluate_target [(fun _ => some 1, 1)] t' = some s' →
          _is_under_maximum_score none s' → s ≤ s')
      ∧ (∀ t' ∈ pre, ∀ s', _evaluate_target [(fun _ => some 1, 1)] t' = some s' →
          _is_under_maximum_score none s' → s < s') :=
  select_target_spec none [(fun _ => some 1, 1)] [0, 1] 0 select_target_ex

/-! ## Theorems: Kalman tracked target initial state -/

theorem var_to_covar_eq (var : Fin 3 → Fin 3 → ℚ) (k l m n : Fin 3) :
    var_to_covar var k l m n = if k = m ∧ l = n then var k l else 0 := by
  fin_cases k <;> fin_cases l <;> fin_cases m <;> fin_cases n <;>
    simp [var_to_covar, eye, Fin.sum_univ_three]

/-- Claim C2 counterexample: with an identity measurement covariance the
initial covariance of `KalmanTrackedTarget` holds 1 in a position-variance
slot, not a value on the order of `1e12`; the `1e12` prior lives in
`_cv_kalman_tracked_target._build_initial_covariance` instead. -/
theorem kalman_position_variance_counterexample :
    kalman_init_s (fun i j => if i = j then 1 else 0) (fun _ => 1) 0 0 0 0 = 1
    ∧ _build_initial_covariance (fun _ => 1) 0 0 = 10 ^ 12
    ∧ (1 : ℚ) ≠ 10 ^ 12 := by
  refine ⟨?_, ?_, by norm_num⟩
  · unfold kalman_init_s
    rw [var_to_covar_eq]
    norm_num [kalman_init_var]
  · norm_num [_build_initial_covariance, diag_uncertainties, safe_max_float]

/-- Claim C2 (amended): the initial mean of `KalmanTrackedTarget` holds the
measured position in its position row and zeros in the derivative rows, and
the initial covariance tensor is block-diagonal with the measurement
covariance diagonal (not a `1e12` prior) in the position slots and the
configured `initial_derivative_variance` entries in the velocity and
acceleration slots. -/
theorem kalman_initialization (measPos : Fin 3 → ℚ) (measCov : Fin 3 → Fin 3 → ℚ)
    (idv : Fin 6 → ℚ) :
    (∀ j, kalman_init_x measPos 0 j = measPos j
      ∧ kalman_init_x measPos 1 j = 0 ∧ kalman_init_x measPos 2 j = 0)
    ∧ (∀ k l m n, (k ≠ m ∨ l ≠ n) → kalman_init_s measCov idv k l m n = 0)
    ∧ (∀ j, kalman_init_s measCov idv 0 j 0 j = measCov j j)
    ∧ (∀ j, kalman_init_s measCov idv 1 j 1 j = idv (Fin.castLE (by norm_num) j))
    ∧ (∀ j, kalman_init_s measCov idv 2 j 2 j = idv (j.addNat 3)) := by
  refine ⟨?_, ?_, ?_, ?_, ?_⟩
  · intro j
    refine ⟨?_, ?_, ?_⟩ <;> simp [kalman_init_x]
  · intro k l m n hne
    unfold kalman_init_s
    rw [var_to_covar_eq, if_neg (by tauto)]
  · intro j
    unfold kalman_init_s
    rw [var_to_covar_eq, if_pos ⟨rfl, rfl⟩]
    simp [kalman_init_var]
  · intro j
    unfold kalman_init_s
    rw [var_to_covar_eq, if_pos ⟨rfl, rfl⟩]
    simp [kalman_init_var]
  · intro j
    unfold kalman_init_s
    rw [var_to_covar_eq, if_pos ⟨rfl, rfl⟩]
    simp [kalman_init_var]

/-! ## Theorems: orientation normalization and the transform roundtrip -/

/-- Claim C3 counterexample: the all-zero quadruple is accepted by the
`Orientation` constructor but is not normalized to a unit quaternion: its
norm after construction is 0, not 1. -/
theorem orientation_zero_not_normalized : qnorm (mkOrientation 0 0 0 0) ≠ 1 := by
  have h0 : qnorm (mkOrientation 0 0 0 0) = 0 := by
    simp [mkOrientation, _normalize_in_place, qnorm, qnormSq]
  rw [h0]
  norm_num

/-- Claim C3 (amended): every quadruple other than the all-zero one constructs
a unit quaternion: the norm after construction is exactly 1. -/
theorem orientation_normalized (w x y z : ℝ) (h : ¬(w = 0 ∧ x = 0 ∧ y = 0 ∧ z = 0)) :
    qnorm (mkOrientation w x y z) = 1 := by
  have hS : 0 < w ^ 2 + x ^ 2 + y ^ 2 + z ^ 2 := by
    rcases lt_or_eq_of_le (show (0:ℝ) ≤ w ^ 2 + x ^ 2 + y ^ 2 + z ^ 2 by positivity) with hlt | heq
    · exact hlt
    · exfalso
      apply h
      have hw : w ^ 2 = 0 := by nlinarith [sq_nonneg x, sq_nonneg y, sq_nonneg z]
      have hx : x ^ 2 = 0 := by nlinarith [sq_nonneg w, sq_nonneg y, sq_nonneg z]
      have hy : y ^ 2 = 0 := by nlinarith [sq_nonneg w, sq_nonneg x, sq_nonneg z]
      have hz : z ^ 2 = 0 := by nlinarith [sq_nonneg w, sq_nonneg x, sq_nonneg y]
      exact ⟨sq_eq_zero_iff.mp hw, sq_eq_zero_iff.mp hx,
        sq_eq_zero_iff.mp hy, sq_eq_zero_iff.mp hz⟩
  have hq : qnorm ⟨w, x, y, z⟩ = Real.sqrt (w ^ 2 + x ^ 2 + y ^ 2 + z ^ 2) := rfl
  show Real.sqrt (qnormSq (_normalize_in_place ⟨w, x, y, z⟩)) = 1
  have hsum : qnormSq (_normalize_in_place ⟨w, x, y, z⟩) = 1 := by
    show (w / qnorm ⟨w, x, y, z⟩) ^ 2 + (x / qnorm ⟨w, x, y, z⟩) ^ 2
        + (y / qnorm ⟨w, x, y, z⟩) ^ 2 + (z / qnorm ⟨w, x, y, z⟩) ^ 2 = 1
    rw [hq, div_pow, div_pow, div_pow, div_pow, div_add_div_same, div_add_div_same,
      div_add_div_same, Real.sq_sqrt hS.le, div_self hS.ne']
  rw [hsum, Real.sqrt_one]

theorem orientation_normalized_witness :
    ¬((3:ℝ) = 0 ∧ (0:ℝ) = 0 ∧ (4:ℝ) = 0 ∧ (0:ℝ) = 0)
    ∧ qnorm (mkOrientation 3 0 4 0) = 1 :=
  ⟨by norm_num, orientation_normalized 3 0 4 0 (by norm_num)⟩

theorem qnormSq_qconjugate (q : Quat) : qnormSq (qconjugate q) = qnormSq q := by
  simp [qnormSq, qconjugate]

theorem qconjugate_qconjugate (q : Quat) : qconjugate (qconjugate q) = q := by
  ext <;> simp [qconjugate]

theorem qnorm_of_unit {q : Quat} (h : qnormSq q = 1) : qnorm q = 1 := by
  unfold qnorm
  rw [h, Real.sqrt_one]

theorem normalize_of_unit {q : Quat} (h : qnormSq q = 1) : _normalize_in_place q = q := by
  unfold _normalize_in_place
  rw [qnorm_of_unit h]
  ext <;> simp

theorem conjugateOrientation_of_unit {q : Quat} (h : qnormSq q = 1) :
    conjugateOrientation q = qconjugate q := by
  unfold conjugateOrientation
  exact normalize_of_unit (by rw [qnormSq_qconjugate]; exact h)

theorem rot_comp (v : Vec3) (q1 q2 : Quat) :
    rotate_vector (rotate_vector v q1) q2 = rotate_vector v (qmult q2 q1) := by
  obtain ⟨a, b, c, d⟩ := q1
  obtain ⟨e, f, g, h⟩ := q2
  obtain ⟨vx, vy, vz⟩ := v
  ext <;> simp [rotate_vector, qmult, qconjugate, quatOfVector] <;> ring

theorem qmult_qconjugate_self (q : Quat) : qmult q (qconjugate q) = ⟨qnormSq q, 0, 0, 0⟩ := by
  ext <;> simp [qmult, qconjugate, qnormSq] <;> ring

theorem rot_one (v : Vec3) : rotate_vector v ⟨1, 0, 0, 0⟩ = v := by
  ext <;> simp [rotate_vector, qmult, qconjugate, quatOfVector]

theorem rot_conj_cancel {q : Quat} (hq : qnormSq q = 1) (v : Vec3) :
    rotate_vector (rotate_vector v (qconjugate q)) q = v := by
  rw [rot_comp, qmult_qconjugate_self, hq, rot_one]

theorem rot_sub (a b : Vec3) (q : Quat) :
    (⟨(rotate_vector a q).x - (rotate_vector b q).x,
      (rotate_vector a q).y - (rotate_vector b q).y,
      (rotate_vector a q).z - (rotate_vector b q).z⟩ : Vec3)
    = rotate_vector ⟨a.x - b.x, a.y - b.y, a.z - b.z⟩ q := by
  obtain ⟨a1, a2, a3⟩ := a
  obtain ⟨b1, b2, b3⟩ := b
  ext <;> simp [rotate_vector, qmult, qconjugate, quatOfVector] <;> ring

theorem roundtrip_core (q : Quat) (u t : Vec3) (hq : qnormSq q = 1) :
    rotate_vector
      ⟨(rotate_vector ⟨u.x - t.x, u.y - t.y, u.z - t.z⟩ (qconjugate q)).x
          - (rotate_vector ⟨-t.x, -t.y, -t.z⟩ (qconjugate q)).x,
        (rotate_vector ⟨u.x - t.x, u.y - t.y, u.z - t.z⟩ (qconjugate q)).y
          - (rotate_vector ⟨-t.x, -t.y, -t.z⟩ (qconjugate q)).y,
        (rotate_vector ⟨u.x - t.x, u.y - t.y, u.z - t.z⟩ (qconjugate q)).z
          - (rotate_vector ⟨-t.x, -t.y, -t.z⟩ (qconjugate q)).z⟩ q = u := by
  rw [rot_sub]
  have harg : (⟨(⟨u.x - t.x, u.y - t.y, u.z - t.z⟩ : Vec3).x - (⟨-t.x, -t.y, -t.z⟩ : Vec3).x,
      (⟨u.x - t.x, u.y - t.y, u.z - t.z⟩ : Vec3).y - (⟨-t.x, -t.y, -t.z⟩ : Vec3).y,
      (⟨u.x - t.x, u.y - t.y, u.z - t.z⟩ : Vec3).z - (⟨-t.x, -t.y, -t.z⟩ : Vec3).z⟩ : Vec3)
      = u := by
    ext <;> ring
  rw [harg]
  exact rot_conj_cancel hq u

/-- Claim C9: applying a `Transform` whose rotation is a unit quaternion (the
invariant the `Orientation` constructor establishes for every nonzero input)
and then applying its `get_inverse` returns every position exactly, and so in
particular within the claimed `1e-6` tolerance. -/
theorem transform_position_roundtrip (T : Transform) (p : Vec3)
    (hq : qnormSq T.rotation = 1) :
    Transform.apply_to_position (Transform.get_inverse T) (Transform.apply_to_position T p)
      = p := by
  have hc : conjugateOrientation T.rotation = qconjugate T.rotation :=
    conjugateOrientation_of_unit hq
  have hc2 : conjugateOrientation (qconjugate T.rotation) = T.rotation := by
    unfold conjugateOrientation
    rw [qconjugate_qconjugate]
    exact normalize_of_unit hq
  unfold Transform.apply_to_position Transform.apply_to_vector Transform.get_inverse
  dsimp only
  rw [hc, hc2]
  exact roundtrip_core T.rotation p T.translation hq

theorem transform_position_roundtrip_witness :
    qnormSq ⟨1, 0, 0, 0⟩ = 1 ∧
    Transform.apply_to_position (Transform.get_inverse ⟨⟨1, 2, 3⟩, ⟨1, 0, 0, 0⟩⟩)
      (Transform.apply_to_position ⟨⟨1, 2, 3⟩, ⟨1, 0, 0, 0⟩⟩ ⟨4, 5, 6⟩) = ⟨4, 5, 6⟩ :=
  ⟨by norm_num [qnormSq],
   transform_position_roundtrip ⟨⟨1, 2, 3⟩, ⟨1, 0, 0, 0⟩⟩ ⟨4, 5, 6⟩ (by norm_num [qnormSq])⟩

end ProjectOtto
